import Mathlib

/-!
Verification of the legal-docket ingestion core (`src/ingest.py`).

The ingestion module is shallowly embedded: pure string helpers mirror the
Python string/regex operations, each database-touching method of
`DocketIngester` becomes an explicit state-passing function over an `Ingest`
record modelling the relational store together with the process-local caches
and counters, and the per-record driver loop becomes a fold.  Fallible Python
code (functions that raise `ValueError`) is modelled with `Except String`.
-/

namespace LegalIngest

/-! ## Basic string helpers mirroring Python's `str` operations -/

/-- Python `\s` whitespace, restricted to the ASCII range used by the data. -/
def isPyWs (c : Char) : Bool :=
  c = ' ' || c = '\t' || c = '\n' || c = '\r' || c = '\x0b' || c = '\x0c'

/-- Python `str.strip` on a character list. -/
def pyStripList (l : List Char) : List Char :=
  ((l.dropWhile isPyWs).reverse.dropWhile isPyWs).reverse

/-- Python `str.strip`. -/
def pyStrip (s : String) : String :=
  ⟨pyStripList s.toList⟩

/-- Python `str.lower` (ASCII). -/
def toLowerStr (s : String) : String :=
  ⟨s.toList.map Char.toLower⟩

/-- Python `str.upper` (ASCII). -/
def toUpperStr (s : String) : String :=
  ⟨s.toList.map Char.toUpper⟩

/-- Helper for Python `str.split()` with no argument: split on whitespace
runs, dropping empty pieces.  The accumulator holds the current word
reversed. -/
def wordsAux : List Char → List Char → List (List Char)
  | [], acc => if acc.isEmpty then [] else [acc.reverse]
  | c :: rest, acc =>
    if isPyWs c then
      if acc.isEmpty then wordsAux rest [] else acc.reverse :: wordsAux rest []
    else wordsAux rest (c :: acc)

/-- Python `str.split()` (no separator argument). -/
def pyWords (s : String) : List String :=
  (wordsAux s.toList []).map List.asString

/-- Helper for splitting on a set of single characters, keeping empty pieces,
as `re.split` with a character class does. -/
def splitAnyAux (seps : List Char) : List Char → List Char → List String
  | [], acc => [acc.reverse.asString]
  | c :: rest, acc =>
    if seps.contains c then acc.reverse.asString :: splitAnyAux seps rest []
    else splitAnyAux seps rest (c :: acc)

/-- Split a string on any of the given separator characters (like
`re.split(r'[;/]', s)`), keeping empty pieces. -/
def splitAny (seps : List Char) (s : String) : List String :=
  splitAnyAux seps s.toList []

/-- Case-insensitive removal of a fixed lowercase token from the front of a
character list; returns the remainder on success. -/
def dropPrefixCI : List Char → List Char → Option (List Char)
  | [], l => some l
  | _ :: _, [] => none
  | t :: ts, c :: cs => if c.toLower = t then dropPrefixCI ts cs else none

/-- All characters are decimal digits. -/
def allDigits (l : List Char) : Bool :=
  l.all Char.isDigit

/-- Numeric value of a digit string. -/
def digitsVal (l : List Char) : Nat :=
  l.foldl (fun a c => a * 10 + (c.toNat - '0'.toNat)) 0

/-! ## Normalizer (`normalize_court_name`, `normalize_judge_name`,
`normalize_party_name`) -/

/-- Embedding of `DocketIngester.normalize_court_name`: on falsy input return
`""`; otherwise uppercase and delete every period and whitespace character
(`re.sub(r'[.\s]+', '', court.upper())`). -/
def normalize_court_name (court : String) : String :=
  if court = "" then ""
  else ⟨(toUpperStr court).toList.filter (fun c => !(c = '.' || isPyWs c))⟩

/-- Match one honorific alternative: the given lowercase token followed by at
least one whitespace character (the regex requires `\s+` after the token);
returns the remainder with the whitespace run consumed. -/
def afterTokenWs (tok : String) (l : List Char) : Option (List Char) :=
  match dropPrefixCI tok.toList l with
  | some (c :: rest) =>
    if isPyWs c then some ((c :: rest).dropWhile isPyWs) else none
  | _ => none

/-- Embedding of the substitution `re.sub(r'^(hon\.?|judge|justice)\s+', '',
judge, flags=IGNORECASE)`: the alternatives are tried in the regex's order
(`hon.` before `hon` because `\.?` is greedy), and each requires a following
whitespace run, which is consumed. -/
def stripHonorific (l : List Char) : List Char :=
  match afterTokenWs "hon." l with
  | some r => r
  | none =>
    match afterTokenWs "hon" l with
    | some r => r
    | none =>
      match afterTokenWs "judge" l with
      | some r => r
      | none =>
        match afterTokenWs "justice" l with
        | some r => r
        | none => l

/-- Embedding of `DocketIngester.normalize_judge_name`: on falsy input return
`""`; otherwise strip a leading honorific (when followed by whitespace),
collapse whitespace with `' '.join(s.split())`, and lowercase. -/
def normalize_judge_name (judge : String) : String :=
  if judge = "" then ""
  else toLowerStr (String.intercalate " " (pyWords ⟨stripHonorific judge.toList⟩))

/-- Embedding of `DocketIngester.normalize_party_name`: on falsy input return
`""`; otherwise collapse whitespace, lowercase, and strip. -/
def normalize_party_name (party : String) : String :=
  if party = "" then ""
  else pyStrip (toLowerStr (String.intercalate " " (pyWords party)))

/-! ## DateResolver (`parse_date`) -/

/-- Pure calendar date, what Python's `datetime.date` carries. -/
structure YMD where
  y : Nat
  m : Nat
  d : Nat
deriving DecidableEq, Repr

/-- Gregorian leap-year test, as `datetime` uses. -/
def isLeap (y : Nat) : Bool :=
  (y % 4 = 0 && y % 100 ≠ 0) || y % 400 = 0

/-- Days in a month, as `datetime` uses. -/
def daysInMonth (y m : Nat) : Nat :=
  if m = 2 then (if isLeap y then 29 else 28)
  else if m = 4 || m = 6 || m = 9 || m = 11 then 30 else 31

/-- Validity of `datetime.date(y, m, d)` (year range 1..9999). -/
def validYMD (y m d : Nat) : Bool :=
  decide (1 ≤ y ∧ y ≤ 9999 ∧ 1 ≤ m ∧ m ≤ 12 ∧ 1 ≤ d ∧ d ≤ daysInMonth y m)

/-- CPython `_strptime` directive `%Y`: exactly four digits. -/
def pctY (p : List Char) : Option Nat :=
  if p.length = 4 && allDigits p then some (digitsVal p) else none

/-- CPython `_strptime` directive `%m`: `1[0-2]|0[1-9]|[1-9]`, i.e. one or two
digits with value 1..12 (and not `0` or `00`). -/
def pctm (p : List Char) : Option Nat :=
  if allDigits p && (p.length = 1 || p.length = 2) then
    let v := digitsVal p
    if 1 ≤ v && v ≤ 12 then some v else none
  else none

/-- CPython `_strptime` directive `%d`: `3[01]|[12]\d|0[1-9]|[1-9]`, i.e. one
or two digits with value 1..31 (and not `0` or `00`). -/
def pctd (p : List Char) : Option Nat :=
  if allDigits p && (p.length = 1 || p.length = 2) then
    let v := digitsVal p
    if 1 ≤ v && v ≤ 31 then some v else none
  else none

/-- Step 1 of `parse_date`: `datetime.strptime(s, '%Y-%m-%d')`.  A matching
string that names an impossible calendar date fails this step (the raised
`ValueError` is swallowed and the next step is tried). -/
def tryIso (s : String) : Option YMD :=
  match splitAny ['-'] s with
  | [py, pm, pd] =>
    match pctY py.toList, pctm pm.toList, pctd pd.toList with
    | some y, some m, some d => if validYMD y m d then some ⟨y, m, d⟩ else none
    | _, _, _ => none
  | _ => none

/-- Step 2 of `parse_date`: the regex matching a 1-2 digit month, a dash or
slash, a 1-2 digit day, a dash or slash, and a 4-digit year, anchored at both
ends (the input is already stripped, so the optional surrounding whitespace
of the regex is moot).  Returns the raw `(month, day, year)` digits without
calendar validation — the caller aborts with an error when the calendar date
is impossible. -/
def tryMdyNumeric (s : String) : Option (Nat × Nat × Nat) :=
  match splitAny ['-', '/'] s with
  | [p1, p2, p3] =>
    if allDigits p1.toList && (p1.length = 1 || p1.length = 2) &&
       (allDigits p2.toList && (p2.length = 1 || p2.length = 2)) &&
       (allDigits p3.toList && p3.length = 4) then
      some (digitsVal p1.toList, digitsVal p2.toList, digitsVal p3.toList)
    else none
  | _ => none

/-- Month abbreviations recognised by `%b`, with their numbers. -/
def monthAbbrevs : List (String × Nat) :=
  [("jan", 1), ("feb", 2), ("mar", 3), ("apr", 4), ("may", 5), ("jun", 6),
   ("jul", 7), ("aug", 8), ("sep", 9), ("oct", 10), ("nov", 11), ("dec", 12)]

/-- Full month names recognised by `%B`, with their numbers. -/
def monthFulls : List (String × Nat) :=
  [("january", 1), ("february", 2), ("march", 3), ("april", 4), ("may", 5),
   ("june", 6), ("july", 7), ("august", 8), ("september", 9), ("october", 10),
   ("november", 11), ("december", 12)]

/-- Match one month name (case-insensitively) at the front of the input. -/
def findMonth : List (String × Nat) → List Char → Option (Nat × List Char)
  | [], _ => none
  | (nm, v) :: rest, l =>
    match dropPrefixCI nm.toList l with
    | some r => some (v, r)
    | none => findMonth rest l

/-- Step 3 of `parse_date`: `datetime.strptime(s, fmt)` for
`'%b %d, %Y'` / `'%B %d, %Y'`: month name, whitespace run, 1-2 digit day,
comma, whitespace run, 4-digit year, end of input; then calendar
validation (failure falls through to the next format). -/
def tryNamedMonth (names : List (String × Nat)) (s : String) : Option YMD :=
  match findMonth names s.toList with
  | none => none
  | some (m, rest) =>
    match rest with
    | [] => none
    | c :: r =>
      if !isPyWs c then none
      else
        let r1 := r.dropWhile isPyWs
        match pctd (r1.takeWhile Char.isDigit) with
        | none => none
        | some d =>
          match r1.dropWhile Char.isDigit with
          | ',' :: r2 =>
            match r2 with
            | [] => none
            | c2 :: r3 =>
              if !isPyWs c2 then none
              else
                let r4 := r3.dropWhile isPyWs
                match pctY (r4.takeWhile Char.isDigit), r4.dropWhile Char.isDigit with
                | some y, [] => if validYMD y m d then some ⟨y, m, d⟩ else none
                | _, _ => none
          | _ => none

/-- Step 4 of `parse_date`: `'%m/%d/%Y'` or `'%m-%d-%Y'` with a fixed
separator (every string this accepts is already consumed by step 2, so the
step is unreachable; it is kept for fidelity to the source). -/
def tryPadded (sep : Char) (s : String) : Option YMD :=
  match splitAny [sep] s with
  | [pm, pd, py] =>
    match pctm pm.toList, pctd pd.toList, pctY py.toList with
    | some m, some d, some y => if validYMD y m d then some ⟨y, m, d⟩ else none
    | _, _, _ => none
  | _ => none

/-- Embedding of `DocketIngester.parse_date`.  `none` models a Python `None`
argument.  The resolution order and the abort-on-bad-calendar-date behaviour
of the numeric month-day-year step follow the source. -/
def parse_date (date_str : Option String) : Except String YMD :=
  match date_str with
  | none => Except.error "filed_date missing"
  | some raw =>
    let s := pyStrip raw
    if s = "" then Except.error "filed_date missing"
    else
      match tryIso s with
      | some dte => Except.ok dte
      | none =>
        match tryMdyNumeric s with
        | some (mm, dd, yyyy) =>
          if validYMD yyyy mm dd then Except.ok ⟨yyyy, mm, dd⟩
          else Except.error ("filed_date parse failed (mdy numeric): " ++ s)
        | none =>
          match tryNamedMonth monthAbbrevs s with
          | some dte => Except.ok dte
          | none =>
            match tryNamedMonth monthFulls s with
            | some dte => Except.ok dte
            | none =>
              match tryPadded '/' s with
              | some dte => Except.ok dte
              | none =>
                match tryPadded '-' s with
                | some dte => Except.ok dte
                | none => Except.error ("filed_date parse failed: " ++ s)

/-! ## PartyListParser (`parse_parties`) -/

/-- Role tokens of the regex
`\((plaintiff|defendant|plaintiffs|defendants|third_party|intervenor|other)\)`,
in the regex's alternation order. -/
def roleTokens : List String :=
  ["plaintiff", "defendant", "plaintiffs", "defendants", "third_party",
   "intervenor", "other"]

/-- Try the role alternatives at one position just after a `(`: the token
must be followed immediately by `)`. -/
def roleAt : List String → List Char → Option String
  | [], _ => none
  | t :: ts, l =>
    match dropPrefixCI t.toList l with
    | some (')' :: _) => some t
    | _ => roleAt ts l

/-- Left-to-right scan of `re.search` for a parenthesised role token. -/
def searchRole : List Char → Option String
  | [] => none
  | c :: rest =>
    if c = '(' then
      match roleAt roleTokens rest with
      | some t => some t
      | none => searchRole rest
    else searchRole rest

/-- Plural→singular normalisation: strip one trailing `s`. -/
def dePlural (r : String) : String :=
  if r.toList.getLast? = some 's' then ⟨r.toList.dropLast⟩ else r

/-- Scanner for `re.sub(r'\([^)]+\)', '', s)`: drop every parenthesised group
with at least one character inside.  The second argument buffers a
potential match in reverse (`some buf` means an unmatched `(` plus the
following non-`)` characters have been read). -/
def removeParensAux : List Char → Option (List Char) → List Char
  | [], none => []
  | [], some buf => buf.reverse
  | c :: rest, none =>
    if c = '(' then removeParensAux rest (some [c])
    else c :: removeParensAux rest none
  | c :: rest, some buf =>
    if c = ')' then
      if 2 ≤ buf.length then removeParensAux rest none
      else buf.reverse ++ c :: removeParensAux rest none
    else removeParensAux rest (some (c :: buf))

/-- Python `re.sub(r'\([^)]+\)', '', s)`. -/
def removeParens (s : String) : String :=
  ⟨removeParensAux s.toList none⟩

/-- Comma split with stripping, dropping empties:
`[p.strip() for p in section.split(',') if p.strip()]`. -/
def splitCommaClean (s : String) : List String :=
  ((splitAny [','] s).map pyStrip).filter (fun p => p ≠ "")

/-- Handle one (already stripped, non-empty) section of the party string. -/
def parseSection (sec : String) : List (String × String) :=
  match searchRole sec.toList with
  | some tok =>
    (splitCommaClean (pyStrip (removeParens sec))).map (fun n => (n, dePlural tok))
  | none =>
    (splitCommaClean sec).map (fun n => (n, "other"))

/-- Embedding of `DocketIngester.parse_parties`: split on `;` or `/` into
sections, skip blank sections, and parse each section. -/
def parse_parties (parties_str : String) : List (String × String) :=
  if parties_str = "" then []
  else
    (((splitAny [';', '/'] parties_str).map pyStrip).filter (fun sec => sec ≠ "")).foldl
      (fun acc sec => acc ++ parseSection sec) []

/-! ## Data model: rows of the normalized store and the ingester state -/

/-- Raw input record: a JSON docket object with optional string fields.
A missing key is `none`. -/
structure Docket where
  case_number : Option String := none
  title : Option String := none
  filed_date : Option String := none
  court : Option String := none
  judge : Option String := none
  case_type : Option String := none
  status : Option String := none
  docket_text : Option String := none
  parties : Option String := none
deriving DecidableEq, Repr

/-- Row of `courts`. -/
structure CourtRow where
  id : Nat
  name : String
  normalized_name : String
deriving DecidableEq, Repr

/-- Row of `judges`. -/
structure JudgeRow where
  id : Nat
  full_name : String
  normalized_name : String
deriving DecidableEq, Repr

/-- Row of `case_types`. -/
structure CaseTypeRow where
  id : Nat
  name : String
deriving DecidableEq, Repr

/-- Row of `parties`. -/
structure PartyRow where
  id : Nat
  name : String
  normalized_name : String
deriving DecidableEq, Repr

/-- Row of `cases` (timestamps such as `updated_at` are outside the model). -/
structure CaseRow where
  id : Nat
  case_number : String
  court_id : Nat
  title : String
  filed_date : YMD
  case_type_id : Nat
  judge_id : Option Nat
  docket_text : String
  status : String
deriving DecidableEq, Repr

/-- Row of `case_parties`, unique on the whole triple. -/
structure CasePartyRow where
  case_id : Nat
  party_id : Nat
  role : String
deriving DecidableEq, Repr

/-- Row of one of the `*_name_variations` tables, unique on
`(entity_id, raw_name)`; timestamps are outside the model. -/
structure VariationRow where
  entity_id : Nat
  raw_name : String
  seen_count : Nat
deriving DecidableEq, Repr

/-- Row of `ingest_errors`; timestamps are outside the model. -/
structure ErrorRow where
  run_id : Nat
  record_hash : String
  case_number : Option String
  error_code : String
  error_message : String
  retry_count : Nat
deriving DecidableEq, Repr

/-- One line of the per-run quarantine JSONL file (timestamp omitted). -/
structure QuarantineLine where
  run_id : Nat
  error_code : String
  why : String
  raw : Docket
  record_hash : String
deriving DecidableEq, Repr

/-- State of a `DocketIngester` together with its store: the tables, the
process-local caches, the processed-case set, and the driver counters.
Each table carries its own id sequence (`next_*`), as Postgres serial
columns do. -/
structure Ingest where
  courts : List CourtRow := []
  judges : List JudgeRow := []
  case_types : List CaseTypeRow := []
  parties : List PartyRow := []
  cases : List CaseRow := []
  case_parties : List CasePartyRow := []
  court_name_variations : List VariationRow := []
  judge_name_variations : List VariationRow := []
  party_name_variations : List VariationRow := []
  ingest_errors : List ErrorRow := []
  quarantine : List QuarantineLine := []
  courts_cache : List (String × Nat) := []
  judges_cache : List (String × Nat) := []
  case_types_cache : List (String × Nat) := []
  parties_cache : List (String × Nat) := []
  processed_cases : List String := []
  next_court_id : Nat := 1
  next_judge_id : Nat := 1
  next_case_type_id : Nat := 1
  next_party_id : Nat := 1
  next_case_id : Nat := 1
  read : Nat := 0
  inserted : Nat := 0
  updated : Nat := 0
  failed : Nat := 0
deriving DecidableEq, Repr

/-- Fresh ingester over an empty store. -/
def initIngest : Ingest := {}

/-! ## Store / cache primitives -/

/-- Lookup in a process-local cache (a Python dict `normalized_key -> id`).
Keys are only ever inserted when absent, so a plain association-list lookup
models the dict. -/
def cacheLookup (cache : List (String × Nat)) (k : String) : Option Nat :=
  (cache.find? (fun e => e.1 == k)).map (fun e => e.2)

/-- SQL `INSERT ... ON CONFLICT (entity_id, raw_name) DO UPDATE SET
seen_count = seen_count + 1` on a name-variation table.  The `seen_count`
column's insert default of 1 is modelled from the spec (the DDL is not part
of the ingestion module): a variation row counts the observations of that
exact raw string. -/
def bumpVariation (vs : List VariationRow) (eid : Nat) (raw : String) :
    List VariationRow :=
  if vs.any (fun v => v.entity_id == eid && v.raw_name == raw) then
    vs.map (fun v =>
      if v.entity_id == eid && v.raw_name == raw then
        { v with seen_count := v.seen_count + 1 }
      else v)
  else vs ++ [⟨eid, raw, 1⟩]

/-- Embedding of `DocketIngester.record_court_variation`. -/
def record_court_variation (s : Ingest) (court_id : Nat) (raw_name : String) :
    Ingest :=
  { s with court_name_variations :=
      bumpVariation s.court_name_variations court_id raw_name }

/-- Embedding of `DocketIngester.record_judge_variation`. -/
def record_judge_variation (s : Ingest) (judge_id : Nat) (raw_name : String) :
    Ingest :=
  { s with judge_name_variations :=
      bumpVariation s.judge_name_variations judge_id raw_name }

/-- Embedding of `DocketIngester.record_party_variation`. -/
def record_party_variation (s : Ingest) (party_id : Nat) (raw_name : String) :
    Ingest :=
  { s with party_name_variations :=
      bumpVariation s.party_name_variations party_id raw_name }

/-! ## EntityResolver (`get_or_create_*`) -/

/-- Embedding of `DocketIngester.get_or_create_court`: falsy input raises;
otherwise normalize, consult cache, then store (inserting a new row on a
store miss), populate the cache, and always record the raw variation. -/
def get_or_create_court (s : Ingest) (court_name : String) :
    Except String Nat × Ingest :=
  if court_name = "" then (Except.error "Court name cannot be empty", s)
  else
    let normalized := normalize_court_name court_name
    match cacheLookup s.courts_cache normalized with
    | some court_id => (Except.ok court_id, record_court_variation s court_id court_name)
    | none =>
      match s.courts.find? (fun r => r.normalized_name == normalized) with
      | some row =>
        let s1 := { s with courts_cache := (normalized, row.id) :: s.courts_cache }
        (Except.ok row.id, record_court_variation s1 row.id court_name)
      | none =>
        let cid := s.next_court_id
        let s1 := { s with
          courts := s.courts ++ [⟨cid, court_name, normalized⟩],
          next_court_id := cid + 1,
          courts_cache := (normalized, cid) :: s.courts_cache }
        (Except.ok cid, record_court_variation s1 cid court_name)

/-- Embedding of `DocketIngester.get_or_create_judge`: never fails; falsy
input or an empty normalized key yields no judge (`none`). -/
def get_or_create_judge (s : Ingest) (judge_name : Option String) :
    Option Nat × Ingest :=
  match judge_name with
  | none => (none, s)
  | some jn =>
    if jn = "" then (none, s)
    else
      let normalized := normalize_judge_name jn
      if normalized = "" then (none, s)
      else
        match cacheLookup s.judges_cache normalized with
        | some judge_id => (some judge_id, record_judge_variation s judge_id jn)
        | none =>
          match s.judges.find? (fun r => r.normalized_name == normalized) with
          | some row =>
            let s1 := { s with judges_cache := (normalized, row.id) :: s.judges_cache }
            (some row.id, record_judge_variation s1 row.id jn)
          | none =>
            let jid := s.next_judge_id
            let s1 := { s with
              judges := s.judges ++ [⟨jid, jn, normalized⟩],
              next_judge_id := jid + 1,
              judges_cache := (normalized, jid) :: s.judges_cache }
            (some jid, record_judge_variation s1 jid jn)

/-- Embedding of `DocketIngester.get_or_create_case_type`: falsy input
raises; the key is the lowercased, stripped raw string; no variation table
exists for case types. -/
def get_or_create_case_type (s : Ingest) (case_type : String) :
    Except String Nat × Ingest :=
  if case_type = "" then (Except.error "Case type cannot be empty", s)
  else
    let ct := pyStrip (toLowerStr case_type)
    match cacheLookup s.case_types_cache ct with
    | some type_id => (Except.ok type_id, s)
    | none =>
      match s.case_types.find? (fun r => r.name == ct) with
      | some row =>
        (Except.ok row.id, { s with case_types_cache := (ct, row.id) :: s.case_types_cache })
      | none =>
        let tid := s.next_case_type_id
        (Except.ok tid, { s with
          case_types := s.case_types ++ [⟨tid, ct⟩],
          next_case_type_id := tid + 1,
          case_types_cache := (ct, tid) :: s.case_types_cache })

/-- Embedding of `DocketIngester.get_or_create_party`: falsy input raises;
otherwise normalize, consult cache then store, and always record the raw
variation. -/
def get_or_create_party (s : Ingest) (party_name : String) :
    Except String Nat × Ingest :=
  if party_name = "" then (Except.error "Party name cannot be empty", s)
  else
    let normalized := normalize_party_name party_name
    match cacheLookup s.parties_cache normalized with
    | some party_id => (Except.ok party_id, record_party_variation s party_id party_name)
    | none =>
      match s.parties.find? (fun r => r.normalized_name == normalized) with
      | some row =>
        let s1 := { s with parties_cache := (normalized, row.id) :: s.parties_cache }
        (Except.ok row.id, record_party_variation s1 row.id party_name)
      | none =>
        let pid := s.next_party_id
        let s1 := { s with
          parties := s.parties ++ [⟨pid, party_name, normalized⟩],
          next_party_id := pid + 1,
          parties_cache := (normalized, pid) :: s.parties_cache }
        (Except.ok pid, record_party_variation s1 pid party_name)

/-! ## RunTracker (`record_error`, `write_quarantine_jsonl`) -/

/-- Embedding of `canonical_json`: deterministic serialization of the raw
record with sorted keys and no whitespace (string escaping, which cannot
change equality of records, is omitted). -/
def jsonField (k : String) (v : Option String) : List String :=
  match v with
  | none => []
  | some s => ["\"" ++ k ++ "\":\"" ++ s ++ "\""]

/-- Canonical JSON of a docket record, keys sorted alphabetically. -/
def canonical_json (d : Docket) : String :=
  "\x7b" ++ String.intercalate ","
    (jsonField "case_number" d.case_number ++ jsonField "case_type" d.case_type ++
     jsonField "court" d.court ++ jsonField "docket_text" d.docket_text ++
     jsonField "filed_date" d.filed_date ++ jsonField "judge" d.judge ++
     jsonField "parties" d.parties ++ jsonField "status" d.status ++
     jsonField "title" d.title) ++ "\x7d"

/-- Stand-in for `sha256_hex`: the cryptographic digest is modelled as the
identity on the canonical string.  The pipeline relies only on the hash
being a deterministic function of the serialized record (its idempotency
key), which the identity preserves. -/
def sha256_hex (s : String) : String := s

/-- Row filter of the SQL `WHERE run_id = %s AND record_hash = %s` used by
the error-dedup update. -/
def errMatches (run_id : Nat) (record_hash : String) (r : ErrorRow) : Bool :=
  r.run_id == run_id && r.record_hash == record_hash

/-- Embedding of `DocketIngester.record_error`: try to bump
`(run_id, record_hash)`; insert a fresh row when no row matched.  The
`retry_count` insert default of 0 is modelled from the spec (the DDL is not
part of the ingestion module): the spec fixes `retry_count == 1` after the
second occurrence. -/
def record_error (s : Ingest) (run_id : Nat) (raw_row : Docket)
    (error_code error_msg : String) (case_number : Option String) : Ingest :=
  let record_hash := sha256_hex (canonical_json raw_row)
  if s.ingest_errors.any (errMatches run_id record_hash) then
    { s with ingest_errors := s.ingest_errors.map (fun r =>
        if errMatches run_id record_hash r then
          { r with retry_count := r.retry_count + 1 }
        else r) }
  else
    { s with ingest_errors := s.ingest_errors ++
        [⟨run_id, record_hash, case_number, error_code, error_msg, 0⟩] }

/-- Embedding of `DocketIngester.write_quarantine_jsonl`: append one line to
the per-run quarantine log. -/
def write_quarantine_jsonl (s : Ingest) (run_id : Nat) (raw_row : Docket)
    (error_code why : String) : Ingest :=
  { s with quarantine := s.quarantine ++
      [⟨run_id, error_code, why, raw_row, sha256_hex (canonical_json raw_row)⟩] }

/-- Contiguous-sublist check for character lists (Python `in` on strings). -/
def infixCheck (sub : List Char) : List Char → Bool
  | [] => sub.isEmpty
  | c :: rest => sub.isPrefixOf (c :: rest) || infixCheck sub rest

/-- Embedding of `DocketIngester._determine_error_code`: keyword search over
the lowercased message. -/
def containsSub (sub s : String) : Bool :=
  infixCheck sub.toList s.toList

/-- Map an error message to an error code, as the driver does. -/
def determine_error_code (error_msg : String) : String :=
  let m := toLowerStr error_msg
  if containsSub "case_number" m then "MISSING_CASE_NUMBER"
  else if containsSub "filed_date" m || containsSub "date" m then "BAD_DATE"
  else if containsSub "status" m then "STATUS_UNMAPPED"
  else if containsSub "court" m then "FK_COURT"
  else if containsSub "case_type" m then "FK_CASE_TYPE"
  else if containsSub "judge" m then "FK_JUDGE"
  else "VALIDATION_ERROR"

/-! ## RecordProcessor (`process_docket`) -/

/-- Field values the case upsert writes (everything except the immutable
`id` and `case_number`). -/
structure CaseFields where
  court_id : Nat
  title : String
  filed_date : YMD
  case_type_id : Nat
  judge_id : Option Nat
  docket_text : String
  status : String
deriving DecidableEq, Repr

/-- Overwrite the mutable columns of a case row, as the `ON CONFLICT DO
UPDATE` clause does. -/
def setFields (r : CaseRow) (f : CaseFields) : CaseRow :=
  { r with court_id := f.court_id, title := f.title, filed_date := f.filed_date,
           case_type_id := f.case_type_id, judge_id := f.judge_id,
           docket_text := f.docket_text, status := f.status }

/-- Mutable columns of a case row. -/
def fieldsOf (r : CaseRow) : CaseFields :=
  ⟨r.court_id, r.title, r.filed_date, r.case_type_id, r.judge_id,
   r.docket_text, r.status⟩

/-- Result of the case upsert: the affected row's id, whether the row was
newly inserted (`xmax = 0`), and the updated table and id sequence. -/
structure UpsertResult where
  case_id : Nat
  was_inserted : Bool
  cases : List CaseRow
  next_case_id : Nat
deriving Repr

/-- SQL `INSERT INTO cases ... ON CONFLICT (case_number) DO UPDATE ...
RETURNING id, (xmax = 0)`: update every mutable column of the existing row,
or insert a fresh row with the next id. -/
def upsertCase (cs : List CaseRow) (nextId : Nat) (k : String) (f : CaseFields) :
    UpsertResult :=
  match cs.find? (fun r => r.case_number == k) with
  | some row =>
    ⟨row.id, false,
     cs.map (fun r => if r.case_number == k then setFields r f else r), nextId⟩
  | none =>
    ⟨nextId, true,
     cs ++ [⟨nextId, k, f.court_id, f.title, f.filed_date, f.case_type_id,
             f.judge_id, f.docket_text, f.status⟩], nextId + 1⟩

/-- Add to the processed-case set. -/
def addProcessed (l : List String) (cn : String) : List String :=
  if l.contains cn then l else l ++ [cn]

/-- SQL `INSERT INTO case_parties ... ON CONFLICT (case_id, party_id, role)
DO NOTHING`. -/
def addCaseParty (l : List CasePartyRow) (t : CasePartyRow) : List CasePartyRow :=
  if l.contains t then l else l ++ [t]

/-- Party loop of `process_docket`: resolve each parsed `(name, role)` and
link it to the case; a failing party resolution is caught and logged,
aborting nothing. -/
def link_parties (s : Ingest) (case_id : Nat) : List (String × String) → Ingest
  | [] => s
  | p :: ps =>
    match get_or_create_party s p.1 with
    | (Except.error _, s1) => link_parties s1 case_id ps
    | (Except.ok party_id, s1) =>
      link_parties
        { s1 with case_parties := addCaseParty s1.case_parties ⟨case_id, party_id, p.2⟩ }
        case_id ps

/-- Python `docket.get('case_number', '').strip()`. -/
def docketCaseNumber (d : Docket) : String :=
  pyStrip (d.case_number.getD "")

/-- Python `docket.get('court', '')`. -/
def docketCourtRaw (d : Docket) : String :=
  d.court.getD ""

/-- Python `docket.get('case_type', 'civil')`. -/
def docketCaseTypeRaw (d : Docket) : String :=
  d.case_type.getD "civil"

/-- Python `docket.get('status', 'active').lower()`. -/
def docketStatus (d : Docket) : String :=
  toLowerStr (d.status.getD "active")

/-- Membership in the closed status set. -/
def statusOk (st : String) : Bool :=
  st == "active" || st == "closed" || st == "pending" || st == "dismissed"

/-- Embedding of `DocketIngester.process_docket`: the validation steps, the
entity resolution, the case upsert and the party loop, in source order.
A `ValueError` raised part-way keeps whatever writes already happened, as
the Python exception does (the transaction is not rolled back per record). -/
def process_docket (s : Ingest) (d : Docket) : Except String String × Ingest :=
  let case_number := docketCaseNumber d
  if case_number = "" then
    (Except.error "case_number is required and cannot be empty", s)
  else
    match parse_date (some (d.filed_date.getD "")) with
    | Except.error e => (Except.error e, s)
    | Except.ok filed_date =>
      match get_or_create_court s (docketCourtRaw d) with
      | (Except.error e, s1) => (Except.error e, s1)
      | (Except.ok court_id, s1) =>
        let js := get_or_create_judge s1 d.judge
        match get_or_create_case_type js.2 (docketCaseTypeRaw d) with
        | (Except.error e, s3) => (Except.error e, s3)
        | (Except.ok case_type_id, s3) =>
          let status := docketStatus d
          if !statusOk status then
            (Except.error ("Invalid status " ++ status ++
              ". Must be one of: active, closed, pending, dismissed"), s3)
          else
            let up := upsertCase s3.cases s3.next_case_id case_number
              ⟨court_id, d.title.getD "", filed_date, case_type_id, js.1,
               d.docket_text.getD "", status⟩
            let s4 := { s3 with
              cases := up.cases,
              next_case_id := up.next_case_id,
              processed_cases := addProcessed s3.processed_cases case_number }
            let s5 := link_parties s4 up.case_id (parse_parties (d.parties.getD ""))
            (Except.ok (if up.was_inserted then "inserted" else "updated"), s5)

/-! ## Pipeline Driver (`ingest_file` record loop) -/

/-- Python `docket.get('case_number', '').strip() or None` of the error
path. -/
def errCaseNumber (d : Docket) : Option String :=
  let cn := docketCaseNumber d
  if cn = "" then none else some cn

/-- One iteration of the driver loop: bump `read`, process the record, and
route the outcome to the `inserted`/`updated` counters or to the
quarantine + error-table path and the `failed` counter.  The batched
transaction commits are not observable in this state model. -/
def process_one (run_id : Nat) (s : Ingest) (d : Docket) : Ingest :=
  let s0 := { s with read := s.read + 1 }
  match process_docket s0 d with
  | (Except.ok action, s1) =>
    if action = "inserted" then { s1 with inserted := s1.inserted + 1 }
    else if action = "updated" then { s1 with updated := s1.updated + 1 }
    else s1
  | (Except.error msg, s1) =>
    let code := determine_error_code msg
    let s2 := write_quarantine_jsonl s1 run_id d code msg
    let s3 := record_error s2 run_id d code msg (errCaseNumber d)
    { s3 with failed := s3.failed + 1 }

/-- Record loop of `DocketIngester.ingest_file`: reset the counters, then
process each docket of the batch in order. -/
def ingest_batch (run_id : Nat) (s : Ingest) (batch : List Docket) : Ingest :=
  batch.foldl (process_one run_id)
    { s with read := 0, inserted := 0, updated := 0, failed := 0 }

/-- Truth-value of an `Except`. -/
def exceptIsOk : Except String α → Bool
  | Except.ok _ => true
  | Except.error _ => false

/-- Pure validity predicate of one record: exactly the conditions under
which `process_docket` raises no `ValueError` (all of them are
state-independent). -/
def docketValid (d : Docket) : Bool :=
  (docketCaseNumber d != "") &&
  exceptIsOk (parse_date (some (d.filed_date.getD ""))) &&
  (docketCourtRaw d != "") &&
  (docketCaseTypeRaw d != "") &&
  statusOk (docketStatus d)

/-! ## Generic decidability helper -/

/-- Decidable equality of `Except` results. -/
instance {ε α : Type} [DecidableEq ε] [DecidableEq α] : DecidableEq (Except ε α) := fun a b =>
  match a, b with
  | Except.ok x, Except.ok y =>
    if h : x = y then Decidable.isTrue (by rw [h])
    else Decidable.isFalse (fun hc => by cases hc; exact h rfl)
  | Except.error x, Except.error y =>
    if h : x = y then Decidable.isTrue (by rw [h])
    else Decidable.isFalse (fun hc => by cases hc; exact h rfl)
  | Except.ok _, Except.error _ => Decidable.isFalse (fun hc => by cases hc)
  | Except.error _, Except.ok _ => Decidable.isFalse (fun hc => by cases hc)

/-! ## Claim C5 — date resolution test vectors -/

/-- C5: the date resolver maps `"10-3-2024"`, `"Oct 3, 2024"`,
`"October 3, 2024"`, and `"2024-10-03"` to 2024-10-03 and `"03/15/2023"` to
2023-03-15, and fails with a typed error on `"13-40-2024"`, on the empty
string, and on an absent value. -/
theorem c5_date_resolution :
    parse_date (some "10-3-2024") = Except.ok ⟨2024, 10, 3⟩ ∧
    parse_date (some "Oct 3, 2024") = Except.ok ⟨2024, 10, 3⟩ ∧
    parse_date (some "October 3, 2024") = Except.ok ⟨2024, 10, 3⟩ ∧
    parse_date (some "2024-10-03") = Except.ok ⟨2024, 10, 3⟩ ∧
    parse_date (some "03/15/2023") = Except.ok ⟨2023, 3, 15⟩ ∧
    parse_date (some "13-40-2024") =
      Except.error "filed_date parse failed (mdy numeric): 13-40-2024" ∧
    parse_date (some "") = Except.error "filed_date missing" ∧
    parse_date none = Except.error "filed_date missing" := by
  decide

/-! ## Claim C8 — party parsing -/

/-- Closed role set produced by the parser. -/
def roleOkB (r : String) : Bool :=
  r == "plaintiff" || r == "defendant" || r == "third_party" ||
  r == "intervenor" || r == "other"

/-- Helper: `roleAt` only returns tokens from its candidate list. -/
theorem roleAt_mem (ts : List String) (l : List Char) (t : String)
    (h : roleAt ts l = some t) : t ∈ ts := by
  induction ts with
  | nil => simp [roleAt] at h
  | cons t0 ts ih =>
    rw [roleAt] at h
    split at h
    · cases h; exact List.mem_cons_self _ _
    · exact List.mem_cons_of_mem _ (ih h)

/-- Helper: the role-token search only returns tokens of the regex. -/
theorem searchRole_mem (l : List Char) (t : String)
    (h : searchRole l = some t) : t ∈ roleTokens := by
  induction l with
  | nil => simp [searchRole] at h
  | cons c rest ih =>
    rw [searchRole] at h
    split at h
    · split at h
      · cases h; exact roleAt_mem _ _ _ (by assumption)
      · exact ih h
    · exact ih h

/-- Helper: depluralising any regex role token lands in the closed role
set. -/
theorem dePlural_roleOk (t : String) (h : t ∈ roleTokens) :
    roleOkB (dePlural t) = true := by
  simp only [roleTokens, List.mem_cons, List.not_mem_nil, or_false] at h
  rcases h with rfl | rfl | rfl | rfl | rfl | rfl | rfl <;> decide

/-- Helper: every pair produced from a single section has a closed-set
role. -/
theorem parseSection_roles (sec : String) :
    (parseSection sec).all (fun p => roleOkB p.2) = true := by
  unfold parseSection
  split
  · rename_i tok h
    apply List.all_eq_true.2
    intro x hx
    obtain ⟨n, _, rfl⟩ := List.mem_map.1 hx
    exact dePlural_roleOk tok (searchRole_mem _ _ h)
  · apply List.all_eq_true.2
    intro x hx
    obtain ⟨n, _, rfl⟩ := List.mem_map.1 hx
    rfl

/-- Helper: folding sections together preserves the closed-role property. -/
theorem foldl_sections_roles (L : List String) (init : List (String × String))
    (h : init.all (fun p => roleOkB p.2) = true) :
    (L.foldl (fun acc sec => acc ++ parseSection sec) init).all
      (fun p => roleOkB p.2) = true := by
  induction L generalizing init with
  | nil => exact h
  | cons sec L ih =>
    apply ih
    rw [List.all_append, Bool.and_eq_true]
    exact ⟨h, parseSection_roles sec⟩

/-- C8: the sample party string parses to the stated ordered sequence, the
empty input yields the empty sequence, and for every input every produced
role lies in the closed role set (the parser is a total function, so it
never fails). -/
theorem c8_party_parsing :
    parse_parties "John Smith (plaintiff); Acme Corp, Jane Doe (defendants)" =
      [("John Smith", "plaintiff"), ("Acme Corp", "defendant"),
       ("Jane Doe", "defendant")] ∧
    parse_parties "" = [] ∧
    ∀ s : String, (parse_parties s).all (fun p => roleOkB p.2) = true := by
  refine ⟨by decide, by decide, fun s => ?_⟩
  unfold parse_parties
  split
  · decide
  · exact foldl_sections_roles _ _ rfl

/-! ## Claim C4 — judge-name normalization -/

/-- Helper: the honorific `Hon.` is stripped together with the following
whitespace run. -/
theorem stripHonorific_hon_dot (l : List Char) :
    stripHonorific ('H' :: 'o' :: 'n' :: '.' :: ' ' :: l) =
      List.dropWhile isPyWs l := rfl

/-- Helper: the honorific `Judge` is stripped together with the following
whitespace run. -/
theorem stripHonorific_judge (l : List Char) :
    stripHonorific ('J' :: 'u' :: 'd' :: 'g' :: 'e' :: ' ' :: l) =
      List.dropWhile isPyWs l := rfl

/-- Helper: the honorific `Justice` is stripped together with the following
whitespace run. -/
theorem stripHonorific_justice (l : List Char) :
    stripHonorific ('J' :: 'u' :: 's' :: 't' :: 'i' :: 'c' :: 'e' :: ' ' :: l) =
      List.dropWhile isPyWs l := rfl

/-- Helper: character list of a literal-prefixed append. -/
theorem toList_append_lit (p s : String) :
    (p ++ s).toList = p.toList ++ s.toList := by
  simp [String.toList]

/-- Helper: common normal form of a judge name whose honorific was
stripped. -/
def judgeTail (s : String) : String :=
  toLowerStr (String.intercalate " " (pyWords ⟨List.dropWhile isPyWs s.toList⟩))

/-- Helper: `normalize_judge_name` after the prefix `Hon. `. -/
theorem normalize_judge_hon (s : String) :
    normalize_judge_name ("Hon. " ++ s) = judgeTail s := by
  have e1 : ("Hon. " ++ s).toList = 'H' :: 'o' :: 'n' :: '.' :: ' ' :: s.toList := by
    rw [toList_append_lit]; rfl
  have hne : ¬ ("Hon. " ++ s) = "" := by
    intro h
    have h2 := congrArg String.toList h
    rw [e1] at h2
    exact absurd h2 (by simp)
  rw [normalize_judge_name, if_neg hne, e1, stripHonorific_hon_dot]
  rfl

/-- Helper: `normalize_judge_name` after the prefix `Judge `. -/
theorem normalize_judge_judge (s : String) :
    normalize_judge_name ("Judge " ++ s) = judgeTail s := by
  have e1 : ("Judge " ++ s).toList = 'J' :: 'u' :: 'd' :: 'g' :: 'e' :: ' ' :: s.toList := by
    rw [toList_append_lit]; rfl
  have hne : ¬ ("Judge " ++ s) = "" := by
    intro h
    have h2 := congrArg String.toList h
    rw [e1] at h2
    exact absurd h2 (by simp)
  rw [normalize_judge_name, if_neg hne, e1, stripHonorific_judge]
  rfl

/-- Helper: `normalize_judge_name` after the prefix `Justice `. -/
theorem normalize_judge_justice (s : String) :
    normalize_judge_name ("Justice " ++ s) = judgeTail s := by
  have e1 : ("Justice " ++ s).toList =
      'J' :: 'u' :: 's' :: 't' :: 'i' :: 'c' :: 'e' :: ' ' :: s.toList := by
    rw [toList_append_lit]; rfl
  have hne : ¬ ("Justice " ++ s) = "" := by
    intro h
    have h2 := congrArg String.toList h
    rw [e1] at h2
    exact absurd h2 (by simp)
  rw [normalize_judge_name, if_neg hne, e1, stripHonorific_justice]
  rfl

/-- C4 counterexample: the claim says an input consisting only of an
honorific token (its own example is the string `"Judge"`) normalizes to the
empty key, but the regex `^(hon\.?|judge|justice)\s+` demands whitespace
after the token, so the bare token is left untouched and merely
lowercased. -/
theorem c4_counterexample :
    normalize_judge_name "Judge" = "judge" ∧ normalize_judge_name "Judge" ≠ "" := by
  decide

/-- C4 (amended): `normalize_judge_name` strips a leading honorific token
`Hon.`/`Hon`/`Judge`/`Justice` (case-insensitive) only when the token is
followed by at least one whitespace character, then collapses internal
whitespace and lowercases; the three whitespace-terminated honorific
prefixes are interchangeable for every tail.  Empty input and input that is
an honorific token followed only by whitespace yield the empty key, but a
bare honorific token with no trailing whitespace is returned lowercased
rather than emptied, and a trailing period is only recognised on `Hon`. -/
theorem c4_amended_honorific_needs_whitespace :
    (∀ s : String, normalize_judge_name ("Hon. " ++ s) =
        normalize_judge_name ("Judge " ++ s)) ∧
    (∀ s : String, normalize_judge_name ("Judge " ++ s) =
        normalize_judge_name ("Justice " ++ s)) ∧
    normalize_judge_name "Hon. Maria Rodriguez" = "maria rodriguez" ∧
    normalize_judge_name "Judge Maria Rodriguez" = "maria rodriguez" ∧
    normalize_judge_name "JUSTICE  Maria   Rodriguez" = "maria rodriguez" ∧
    normalize_judge_name "" = "" ∧
    normalize_judge_name "Judge " = "" ∧
    normalize_judge_name "Hon. " = "" ∧
    normalize_judge_name "Judge" = "judge" ∧
    normalize_judge_name "Justice" = "justice" ∧
    normalize_judge_name "Judge." = "judge." := by
  refine ⟨fun s => ?_, fun s => ?_, by decide, by decide, by decide, by decide,
    by decide, by decide, by decide, by decide, by decide⟩
  · rw [normalize_judge_hon, normalize_judge_judge]
  · rw [normalize_judge_judge, normalize_judge_justice]

/-! ## Claim C3 — empty normalized keys -/

/-- C3 counterexample: the court string `". ."` is non-empty but normalizes
to the empty key; the claim says resolution must fail with
`EmptyRequiredField`, yet `get_or_create_court` succeeds and creates a court
row whose unique normalized key is the empty string. -/
theorem c3_counterexample :
    normalize_court_name ". ." = "" ∧
    exceptIsOk (get_or_create_court initIngest ". .").1 = true ∧
    (get_or_create_court initIngest ". .").2.courts =
      [{ id := 1, name := ". .", normalized_name := "" }] := by
  decide

/-- C3 (amended): the emptiness check of the court/case-type/party resolvers
tests only the raw string, before normalization: resolution fails (with a
`ValueError`, `"... cannot be empty"`) exactly when the raw string is empty,
and any non-empty raw string — including one whose normalized key is
empty — resolves successfully. -/
theorem c3_amended_only_raw_empty_fails (s : Ingest) (raw : String) :
    (exceptIsOk (get_or_create_court s raw).1 = true ↔ raw ≠ "") ∧
    (exceptIsOk (get_or_create_case_type s raw).1 = true ↔ raw ≠ "") ∧
    (exceptIsOk (get_or_create_party s raw).1 = true ↔ raw ≠ "") := by
  refine ⟨?_, ?_, ?_⟩
  · by_cases h : raw = ""
    · subst h; simp [get_or_create_court, exceptIsOk]
    · simp only [h, ne_eq, not_false_iff, iff_true]
      simp only [get_or_create_court, if_neg h]
      split
      · rfl
      · split
        · rfl
        · rfl
  · by_cases h : raw = ""
    · subst h; simp [get_or_create_case_type, exceptIsOk]
    · simp only [h, ne_eq, not_false_iff, iff_true]
      simp only [get_or_create_case_type, if_neg h]
      split
      · rfl
      · split
        · rfl
        · rfl
  · by_cases h : raw = ""
    · subst h; simp [get_or_create_party, exceptIsOk]
    · simp only [h, ne_eq, not_false_iff, iff_true]
      simp only [get_or_create_party, if_neg h]
      split
      · rfl
      · split
        · rfl
        · rfl

/-! ## Shared frame and behaviour lemmas about the stateful operations -/

/-- Helper: a truthy `Except` is an `ok`. -/
theorem exceptIsOk_ok {α : Type} {e : Except String α} (h : exceptIsOk e = true) :
    ∃ a, e = Except.ok a := by
  cases e with
  | ok a => exact ⟨a, rfl⟩
  | error b => simp [exceptIsOk] at h

/-- Helper: a non-empty raw court resolves to an ok id. -/
theorem gocc_ok (s : Ingest) (raw : String) (h : ¬ raw = "") :
    ∃ i t, get_or_create_court s raw = (Except.ok i, t) := by
  simp only [get_or_create_court, if_neg h]
  split
  · exact ⟨_, _, rfl⟩
  · split
    · exact ⟨_, _, rfl⟩
    · exact ⟨_, _, rfl⟩

/-- Helper: a non-empty raw case type resolves to an ok id. -/
theorem gocct_ok (s : Ingest) (raw : String) (h : ¬ raw = "") :
    ∃ i t, get_or_create_case_type s raw = (Except.ok i, t) := by
  simp only [get_or_create_case_type, if_neg h]
  split
  · exact ⟨_, _, rfl⟩
  · split
    · exact ⟨_, _, rfl⟩
    · exact ⟨_, _, rfl⟩

/-- Shape of a court resolution: only the four court components change. -/
theorem gocc_shape (s : Ingest) (nm : String) :
    ∃ a b c v, (get_or_create_court s nm).2 =
      { s with courts := a, next_court_id := b, courts_cache := c,
               court_name_variations := v } := by
  simp only [get_or_create_court, record_court_variation]
  split
  · exact ⟨_, _, _, _, rfl⟩
  · split
    · exact ⟨_, _, _, _, rfl⟩
    · split
      · exact ⟨_, _, _, _, rfl⟩
      · exact ⟨_, _, _, _, rfl⟩

/-- Shape of a judge resolution: only the four judge components change. -/
theorem gocj_shape (s : Ingest) (nm : Option String) :
    ∃ a b c v, (get_or_create_judge s nm).2 =
      { s with judges := a, next_judge_id := b, judges_cache := c,
               judge_name_variations := v } := by
  simp only [get_or_create_judge, record_judge_variation]
  split
  · exact ⟨_, _, _, _, rfl⟩
  · split
    · exact ⟨_, _, _, _, rfl⟩
    · split
      · exact ⟨_, _, _, _, rfl⟩
      · split
        · exact ⟨_, _, _, _, rfl⟩
        · split
          · exact ⟨_, _, _, _, rfl⟩
          · exact ⟨_, _, _, _, rfl⟩

/-- Shape of a case-type resolution: only the three case-type components
change. -/
theorem gocct_shape (s : Ingest) (nm : String) :
    ∃ a b c, (get_or_create_case_type s nm).2 =
      { s with case_types := a, next_case_type_id := b, case_types_cache := c } := by
  simp only [get_or_create_case_type]
  split
  · exact ⟨_, _, _, rfl⟩
  · split
    · exact ⟨_, _, _, rfl⟩
    · split
      · exact ⟨_, _, _, rfl⟩
      · exact ⟨_, _, _, rfl⟩

/-- Shape of a party resolution: only the four party components change. -/
theorem gocp_shape (s : Ingest) (nm : String) :
    ∃ a b c v, (get_or_create_party s nm).2 =
      { s with parties := a, next_party_id := b, parties_cache := c,
               party_name_variations := v } := by
  simp only [get_or_create_party, record_party_variation]
  split
  · exact ⟨_, _, _, _, rfl⟩
  · split
    · exact ⟨_, _, _, _, rfl⟩
    · split
      · exact ⟨_, _, _, _, rfl⟩
      · exact ⟨_, _, _, _, rfl⟩

/-- Shape of the party loop: only the party components and the case-party
links change. -/
theorem link_parties_shape (case_id : Nat) (ps : List (String × String)) :
    ∀ s : Ingest, ∃ a b c v cp, link_parties s case_id ps =
      { s with parties := a, next_party_id := b, parties_cache := c,
               party_name_variations := v, case_parties := cp } := by
  induction ps with
  | nil => exact fun s => ⟨_, _, _, _, _, rfl⟩
  | cons p ps ih =>
    intro s
    simp only [link_parties]
    obtain ⟨a0, b0, c0, v0, hs⟩ := gocp_shape s p.1
    split
    · rename_i e s1 heq
      rw [heq] at hs
      replace hs : s1 = _ := hs
      subst hs
      obtain ⟨a, b, c, v, cp, hl⟩ := ih _
      exact ⟨a, b, c, v, cp, by rw [hl]⟩
    · rename_i pid s1 heq
      rw [heq] at hs
      replace hs : s1 = _ := hs
      obtain ⟨a, b, c, v, cp, hl⟩ :=
        ih { s1 with case_parties := addCaseParty s1.case_parties ⟨case_id, pid, p.2⟩ }
      subst hs
      exact ⟨a, b, c, v, cp, by rw [hl]⟩

/-- Frame: the party loop never touches the cases table. -/
theorem link_parties_cases (st : Ingest) (cid : Nat) (ps : List (String × String)) :
    (link_parties st cid ps).cases = st.cases := by
  obtain ⟨a, b, c, v, cp, hl⟩ := link_parties_shape cid ps st
  rw [hl]

/-- Key of a case row is untouched by a field overwrite. -/
theorem setFields_case_number (r : CaseRow) (f : CaseFields) :
    (setFields r f).case_number = r.case_number := rfl

/-- Id of a case row is untouched by a field overwrite. -/
theorem setFields_id (r : CaseRow) (f : CaseFields) :
    (setFields r f).id = r.id := rfl

/-- Helper: `find?` skips a prefix in which nothing matches. -/
theorem find?_append_of_none {α : Type} (p : α → Bool) (l1 l2 : List α)
    (h : l1.find? p = none) : (l1 ++ l2).find? p = l2.find? p := by
  induction l1 with
  | nil => rfl
  | cons a l1 ih =>
    by_cases hp : p a
    · rw [List.find?_cons_of_pos _ hp] at h; cases h
    · rw [List.cons_append, List.find?_cons_of_neg _ hp]
      rw [List.find?_cons_of_neg _ hp] at h
      exact ih h

/-- Helper: replacing the fields of every row with the target key moves
`find?` through the map. -/
theorem find?_map_setFields (k : String) (f : CaseFields) (cs : List CaseRow)
    (row0 : CaseRow) (h : cs.find? (fun r => r.case_number == k) = some row0) :
    (cs.map (fun r => if r.case_number == k then setFields r f else r)).find?
      (fun r => r.case_number == k) = some (setFields row0 f) := by
  induction cs generalizing row0 with
  | nil => cases h
  | cons r cs ih =>
    by_cases hb : (r.case_number == k) = true
    · simp only [List.find?, hb] at h
      injection h with h2
      subst h2
      simp only [List.map_cons, hb, if_true, List.find?, setFields_case_number]
    · have hbf : (r.case_number == k) = false := by simpa using hb
      simp only [List.find?, hbf] at h
      simp only [List.map_cons, hbf, Bool.false_eq_true, if_false, List.find?,
        setFields_case_number]
      exact ih _ h

/-- Behaviour of the upsert: afterwards the table holds exactly the written
fields under the business key, with the key and row id preserved. -/
theorem upsert_find_self (cs : List CaseRow) (n : Nat) (k : String) (f : CaseFields) :
    ∃ row, (upsertCase cs n k f).cases.find? (fun r => r.case_number == k) = some row ∧
      fieldsOf row = f ∧ row.case_number = k ∧ row.id = (upsertCase cs n k f).case_id := by
  unfold upsertCase
  split
  · rename_i row0 h
    refine ⟨setFields row0 f, find?_map_setFields k f cs row0 h, rfl, ?_, rfl⟩
    rw [setFields_case_number]
    have hp : (row0.case_number == k) = true := by
      have h2 := List.find?_some h
      simpa using h2
    exact beq_iff_eq.1 hp
  · rename_i h
    refine ⟨⟨n, k, f.court_id, f.title, f.filed_date, f.case_type_id, f.judge_id,
      f.docket_text, f.status⟩, ?_, rfl, rfl, rfl⟩
    rw [find?_append_of_none _ _ _ h]
    simp [List.find?]

/-! ## Claim C10 — missing status defaults to active -/

/-- C10: a record with no `status` key is not rejected; the status defaults
to `active` before the closed-set validation, the record processes
successfully (given the other validations pass), and the upserted case row
carries status `active`. -/
theorem c10_missing_status_defaults_active (s : Ingest) (d : Docket)
    (hst : d.status = none)
    (hcn : ¬ docketCaseNumber d = "")
    (hdate : exceptIsOk (parse_date (some (d.filed_date.getD ""))) = true)
    (hcourt : ¬ docketCourtRaw d = "")
    (hct : ¬ docketCaseTypeRaw d = "") :
    ∃ action s', process_docket s d = (Except.ok action, s') ∧
      ∃ row, s'.cases.find? (fun r => r.case_number == docketCaseNumber d) = some row ∧
        row.status = "active" := by
  obtain ⟨fd, hfd⟩ := exceptIsOk_ok hdate
  obtain ⟨ci, t1, hcourt_eq⟩ := gocc_ok s (docketCourtRaw d) hcourt
  have hstat : docketStatus d = "active" := by rw [docketStatus, hst]; rfl
  obtain ⟨ti, t3, hct_eq⟩ :=
    gocct_ok (get_or_create_judge t1 d.judge).2 (docketCaseTypeRaw d) hct
  simp only [process_docket, if_neg hcn, hfd, hcourt_eq, hct_eq, hstat]
  refine ⟨_, _, rfl, ?_⟩
  rw [link_parties_cases]
  obtain ⟨row, hrow, hf, hk, _⟩ := upsert_find_self t3.cases t3.next_case_id
    (docketCaseNumber d)
    ⟨ci, d.title.getD "", fd, ti, (get_or_create_judge t1 d.judge).1,
     d.docket_text.getD "", "active"⟩
  exact ⟨row, hrow, congrArg CaseFields.status hf⟩

/-- Sample docket for the C10 witness: no `status` key at all. -/
def c10Doc : Docket :=
  { case_number := some "1:24-cv-1", filed_date := some "1-2-2024",
    court := some "S.D.N.Y." }

/-- C10 witness: the hypotheses hold and the theorem applies at a concrete
record with the `status` key absent. -/
theorem c10_witness :
    c10Doc.status = none ∧
    (¬ docketCaseNumber c10Doc = "") ∧
    exceptIsOk (parse_date (some (c10Doc.filed_date.getD ""))) = true ∧
    (¬ docketCourtRaw c10Doc = "") ∧
    (¬ docketCaseTypeRaw c10Doc = "") ∧
    (∃ action s', process_docket initIngest c10Doc = (Except.ok action, s') ∧
      ∃ row, s'.cases.find? (fun r => r.case_number == docketCaseNumber c10Doc) = some row ∧
        row.status = "active") :=
  ⟨rfl, by decide, by decide, by decide, by decide,
   c10_missing_status_defaults_active initIngest c10Doc rfl (by decide) (by decide)
     (by decide) (by decide)⟩

/-! ## Counters frame: record processing never touches the driver counters,
the quarantine log or the error table -/

/-- Frame predicate: counters, quarantine log and error table agree. -/
def CountersFrame (a b : Ingest) : Prop :=
  b.read = a.read ∧ b.inserted = a.inserted ∧ b.updated = a.updated ∧
  b.failed = a.failed ∧ b.quarantine = a.quarantine ∧
  b.ingest_errors = a.ingest_errors

/-- CountersFrame is reflexive. -/
theorem countersFrame_refl (a : Ingest) : CountersFrame a a :=
  ⟨rfl, rfl, rfl, rfl, rfl, rfl⟩

/-- CountersFrame is transitive. -/
theorem countersFrame_trans {a b c : Ingest}
    (h1 : CountersFrame a b) (h2 : CountersFrame b c) : CountersFrame a c :=
  ⟨h2.1.trans h1.1, h2.2.1.trans h1.2.1, h2.2.2.1.trans h1.2.2.1,
   h2.2.2.2.1.trans h1.2.2.2.1, h2.2.2.2.2.1.trans h1.2.2.2.2.1,
   h2.2.2.2.2.2.trans h1.2.2.2.2.2⟩

/-- Court resolution preserves the counters frame. -/
theorem gocc_counters (s : Ingest) (nm : String) :
    CountersFrame s (get_or_create_court s nm).2 := by
  obtain ⟨a, b, c, v, h⟩ := gocc_shape s nm
  rw [h]
  exact ⟨rfl, rfl, rfl, rfl, rfl, rfl⟩

/-- Judge resolution preserves the counters frame. -/
theorem gocj_counters (s : Ingest) (nm : Option String) :
    CountersFrame s (get_or_create_judge s nm).2 := by
  obtain ⟨a, b, c, v, h⟩ := gocj_shape s nm
  rw [h]
  exact ⟨rfl, rfl, rfl, rfl, rfl, rfl⟩

/-- Case-type resolution preserves the counters frame. -/
theorem gocct_counters (s : Ingest) (nm : String) :
    CountersFrame s (get_or_create_case_type s nm).2 := by
  obtain ⟨a, b, c, h⟩ := gocct_shape s nm
  rw [h]
  exact ⟨rfl, rfl, rfl, rfl, rfl, rfl⟩

/-- The party loop preserves the counters frame. -/
theorem link_parties_counters (st : Ingest) (cid : Nat)
    (ps : List (String × String)) : CountersFrame st (link_parties st cid ps) := by
  obtain ⟨a, b, c, v, cp, h⟩ := link_parties_shape cid ps st
  rw [h]
  exact ⟨rfl, rfl, rfl, rfl, rfl, rfl⟩

/-- Record processing preserves the counters frame on either outcome. -/
theorem pd_counters (s : Ingest) (d : Docket) :
    CountersFrame s (process_docket s d).2 := by
  simp only [process_docket]
  split
  · exact countersFrame_refl s
  · split
    · exact countersFrame_refl s
    · split
      · rename_i heq
        have hc := gocc_counters s (docketCourtRaw d)
        rw [heq] at hc
        exact hc
      · rename_i court_id s1 heq
        have hc : CountersFrame s s1 := by
          have h0 := gocc_counters s (docketCourtRaw d)
          rw [heq] at h0
          exact h0
        have hj : CountersFrame s1 (get_or_create_judge s1 d.judge).2 :=
          gocj_counters s1 d.judge
        split
        · rename_i heq2
          have hct := gocct_counters (get_or_create_judge s1 d.judge).2
            (docketCaseTypeRaw d)
          rw [heq2] at hct
          exact countersFrame_trans (countersFrame_trans hc hj) hct
        · rename_i case_type_id s3 heq2
          have hct : CountersFrame (get_or_create_judge s1 d.judge).2 s3 := by
            have h0 := gocct_counters (get_or_create_judge s1 d.judge).2
              (docketCaseTypeRaw d)
            rw [heq2] at h0
            exact h0
          have hbase := countersFrame_trans (countersFrame_trans hc hj) hct
          split
          · exact hbase
          · exact countersFrame_trans hbase
              (countersFrame_trans ⟨rfl, rfl, rfl, rfl, rfl, rfl⟩
                (link_parties_counters _ _ _))

/-- Outcome of the case upsert is always one of the two action strings. -/
theorem pd_action (s : Ingest) (d : Docket) (a : String) (t : Ingest)
    (h : process_docket s d = (Except.ok a, t)) :
    a = "inserted" ∨ a = "updated" := by
  simp only [process_docket] at h
  split at h
  · cases h
  · split at h
    · cases h
    · split at h
      · cases h
      · split at h
        · cases h
        · split at h
          · cases h
          · rw [Prod.mk.injEq] at h
            obtain ⟨h1, _⟩ := h
            injection h1 with h1
            subst h1
            split
            · exact Or.inl rfl
            · exact Or.inr rfl

/-- A valid record processes to an ok outcome (from any state). -/
theorem pd_ok_of_valid (s : Ingest) (d : Docket) (h : docketValid d = true) :
    ∃ a t, process_docket s d = (Except.ok a, t) := by
  simp only [docketValid, Bool.and_eq_true, bne_iff_ne, ne_eq] at h
  obtain ⟨⟨⟨⟨hcn, hdate⟩, hcourt⟩, hct⟩, hstatus⟩ := h
  obtain ⟨fd, hfd⟩ := exceptIsOk_ok hdate
  obtain ⟨ci, t1, hcourt_eq⟩ := gocc_ok s (docketCourtRaw d) hcourt
  obtain ⟨ti, t3, hct_eq⟩ :=
    gocct_ok (get_or_create_judge t1 d.judge).2 (docketCaseTypeRaw d) hct
  simp only [process_docket, if_neg hcn, hfd, hcourt_eq, hct_eq, hstatus,
    Bool.not_true, Bool.false_eq_true, if_false]
  exact ⟨_, _, rfl⟩

/-- The empty raw court fails resolution at once, leaving the state alone. -/
theorem gocc_err_empty (s : Ingest) :
    get_or_create_court s "" = (Except.error "Court name cannot be empty", s) := rfl

/-- The empty raw case type fails resolution at once, leaving the state
alone. -/
theorem gocct_err_empty (s : Ingest) :
    get_or_create_case_type s "" =
      (Except.error "Case type cannot be empty", s) := rfl

/-- An invalid record processes to an error outcome (from any state). -/
theorem pd_err_of_invalid (s : Ingest) (d : Docket) (h : docketValid d = false) :
    ∃ e t, process_docket s d = (Except.error e, t) := by
  by_cases h1 : docketCaseNumber d = ""
  · exact ⟨"case_number is required and cannot be empty", s, by
      simp only [process_docket, if_pos h1]⟩
  · cases hd : parse_date (some (d.filed_date.getD "")) with
    | error e => exact ⟨e, s, by simp only [process_docket, if_neg h1, hd]⟩
    | ok fd =>
      by_cases hc : docketCourtRaw d = ""
      · refine ⟨"Court name cannot be empty", s, ?_⟩
        simp only [process_docket, if_neg h1, hd, hc, gocc_err_empty]
      · obtain ⟨ci, t1, hcourt_eq⟩ := gocc_ok s (docketCourtRaw d) hc
        by_cases hct : docketCaseTypeRaw d = ""
        · refine ⟨"Case type cannot be empty", (get_or_create_judge t1 d.judge).2, ?_⟩
          simp only [process_docket, if_neg h1, hd, hcourt_eq, hct, gocct_err_empty]
        · obtain ⟨ti, t3, hct_eq⟩ :=
            gocct_ok (get_or_create_judge t1 d.judge).2 (docketCaseTypeRaw d) hct
          have hstatus : statusOk (docketStatus d) = false := by
            simp only [docketValid, Bool.and_eq_true, bne_iff_ne, ne_eq,
              Bool.and_eq_false_iff] at h
            rcases h with ((((h' | h') | h') | h') | h')
            · exact absurd h1 (by simpa using h')
            · rw [hd] at h'; exact absurd h' (by simp [exceptIsOk])
            · exact absurd hc (by simpa using h')
            · exact absurd hct (by simpa using h')
            · exact h'
          refine ⟨"Invalid status " ++ docketStatus d ++
            ". Must be one of: active, closed, pending, dismissed", t3, ?_⟩
          simp only [process_docket, if_neg h1, hd, hcourt_eq, hct_eq, hstatus,
            Bool.not_false, if_true]

/-- Shape of a quarantine write: only the quarantine log grows. -/
theorem wq_shape (s : Ingest) (rid : Nat) (d : Docket) (code why : String) :
    write_quarantine_jsonl s rid d code why =
      { s with quarantine := s.quarantine ++
          [⟨rid, code, why, d, sha256_hex (canonical_json d)⟩] } := rfl

/-- Shape of an error record: only the error table changes. -/
theorem re_shape (s : Ingest) (rid : Nat) (d : Docket) (code msg : String)
    (cn : Option String) :
    ∃ e, record_error s rid d code msg cn = { s with ingest_errors := e } := by
  simp only [record_error]
  split
  · exact ⟨_, rfl⟩
  · exact ⟨_, rfl⟩

/-- One driver iteration bumps `read` by one and exactly one of the three
outcome counters by one. -/
theorem process_one_counts (rid : Nat) (s : Ingest) (d : Docket) :
    (process_one rid s d).read = s.read + 1 ∧
    (process_one rid s d).inserted + (process_one rid s d).updated +
      (process_one rid s d).failed = s.inserted + s.updated + s.failed + 1 := by
  simp only [process_one]
  split
  · rename_i a s1 heq
    have hcf := pd_counters { s with read := s.read + 1 } d
    rw [heq] at hcf
    obtain ⟨hr, hi, hu, hf, _, _⟩ := hcf
    replace hr : s1.read = s.read + 1 := hr
    replace hi : s1.inserted = s.inserted := hi
    replace hu : s1.updated = s.updated := hu
    replace hf : s1.failed = s.failed := hf
    rcases pd_action _ _ _ _ heq with h | h <;> subst h <;>
      simp only [reduceIte, String.reduceEq] <;>
      constructor <;> simp [hr, hi, hu, hf] <;> omega
  · rename_i e s1 heq
    have hcf := pd_counters { s with read := s.read + 1 } d
    rw [heq] at hcf
    obtain ⟨hr, hi, hu, hf, _, _⟩ := hcf
    replace hr : s1.read = s.read + 1 := hr
    replace hi : s1.inserted = s.inserted := hi
    replace hu : s1.updated = s.updated := hu
    replace hf : s1.failed = s.failed := hf
    obtain ⟨E, hre⟩ := re_shape (write_quarantine_jsonl s1 rid d
      (determine_error_code e) e) rid d (determine_error_code e) e (errCaseNumber d)
    rw [hre, wq_shape]
    refine ⟨by simp [hr], by simp [hi, hu, hf]; omega⟩

/-- Invariant of the driver loop: once the balance `read = inserted +
updated + failed` holds, it holds after processing any further records. -/
theorem foldl_counts_invariant (rid : Nat) (batch : List Docket) :
    ∀ t : Ingest, t.read = t.inserted + t.updated + t.failed →
      (batch.foldl (process_one rid) t).read =
        (batch.foldl (process_one rid) t).inserted +
        (batch.foldl (process_one rid) t).updated +
        (batch.foldl (process_one rid) t).failed := by
  induction batch with
  | nil => exact fun t ht => ht
  | cons d batch ih =>
    intro t ht
    simp only [List.foldl_cons]
    apply ih
    obtain ⟨hr, hsum⟩ := process_one_counts rid t d
    omega

/-! ## Claim C9 — counter balance -/

/-- C9: after the driver processes any batch from any starting state, the
counters satisfy `read = inserted + updated + failed`: every record read
increments exactly one of the three outcome counters. -/
theorem c9_counters_balance (rid : Nat) (s : Ingest) (batch : List Docket) :
    (ingest_batch rid s batch).read =
      (ingest_batch rid s batch).inserted +
      (ingest_batch rid s batch).updated +
      (ingest_batch rid s batch).failed := by
  unfold ingest_batch
  exact foldl_counts_invariant rid batch _ rfl

/-! ## Claim C6 — quarantine/error dedup -/

/-- Helper: the error-row bump keeps the dedup key, so filtering by the key
commutes with the bump map. -/
theorem filter_map_bump (P : ErrorRow → Bool) (g : ErrorRow → ErrorRow)
    (hg : ∀ r, P (g r) = P r) (E : List ErrorRow) :
    ((E.map (fun r => if P r then g r else r)).filter P) =
      (E.filter P).map g := by
  induction E with
  | nil => rfl
  | cons r E ih =>
    by_cases hp : P r = true
    · simp [List.filter_cons, hg, hp, ih]
    · have hp' : P r = false := by simpa using hp
      simp [List.filter_cons, hg, hp', ih]

/-- Helper: a list with no matching row filters to the empty list. -/
theorem filter_eq_nil_of_any_false (P : ErrorRow → Bool) (E : List ErrorRow)
    (h : E.any P = false) : E.filter P = [] := by
  induction E with
  | nil => rfl
  | cons r E ih =>
    simp only [List.any_cons, Bool.or_eq_false_iff] at h
    simp [List.filter_cons, h.1, ih h.2]

/-- Helper: effect of one driver iteration on a record that fails
validation: the quarantine log gains one line and the error table is
upserted under the record's content hash. -/
theorem process_one_err_effects (rid : Nat) (s : Ingest) (d : Docket)
    (hinv : docketValid d = false) :
    ∃ code msg,
      (process_one rid s d).ingest_errors =
        (if s.ingest_errors.any (errMatches rid (sha256_hex (canonical_json d))) = true then
          s.ingest_errors.map (fun r =>
            if errMatches rid (sha256_hex (canonical_json d)) r then
              { r with retry_count := r.retry_count + 1 } else r)
         else s.ingest_errors ++ [⟨rid, sha256_hex (canonical_json d),
           errCaseNumber d, code, msg, 0⟩]) ∧
      (process_one rid s d).quarantine.length = s.quarantine.length + 1 := by
  obtain ⟨e1, t1, heq1⟩ := pd_err_of_invalid { s with read := s.read + 1 } d hinv
  have hcf := pd_counters { s with read := s.read + 1 } d
  rw [heq1] at hcf
  replace hq : t1.quarantine = s.quarantine := hcf.2.2.2.2.1
  replace he : t1.ingest_errors = s.ingest_errors := hcf.2.2.2.2.2
  refine ⟨determine_error_code e1, e1, ?_, ?_⟩
  · simp only [process_one, heq1, wq_shape, record_error]
    rw [he]
    split
    · rename_i hc
      simp only [hc, if_true]
    · rename_i hc
      simp only [Bool.not_eq_true] at hc
      simp only [hc, Bool.false_eq_true, if_false]
  · simp only [process_one, heq1, wq_shape, record_error]
    split
    · simp [hq]
    · simp [hq]

/-- C6: submitting the byte-identical malformed record twice within one run
yields exactly one matching IngestError row, whose `retry_count` is 1 after
the second occurrence, while the quarantine log gains one line per
occurrence. -/
theorem c6_error_dedup (rid : Nat) (s : Ingest) (d : Docket)
    (hinv : docketValid d = false)
    (hfresh : s.ingest_errors.any
      (errMatches rid (sha256_hex (canonical_json d))) = false) :
    ((process_one rid (process_one rid s d) d).ingest_errors.filter
      (errMatches rid (sha256_hex (canonical_json d)))).length = 1 ∧
    (∀ r ∈ (process_one rid (process_one rid s d) d).ingest_errors.filter
      (errMatches rid (sha256_hex (canonical_json d))), r.retry_count = 1) ∧
    (process_one rid (process_one rid s d) d).quarantine.length =
      s.quarantine.length + 2 := by
  obtain ⟨c1, m1, he1, hq1⟩ := process_one_err_effects rid s d hinv
  rw [hfresh] at he1
  simp only [Bool.false_eq_true, if_false] at he1
  have row0 : ErrorRow := ⟨rid, sha256_hex (canonical_json d),
    errCaseNumber d, c1, m1, 0⟩
  have hmatch : errMatches rid (sha256_hex (canonical_json d))
      (⟨rid, sha256_hex (canonical_json d), errCaseNumber d, c1, m1, 0⟩ : ErrorRow) = true := by
    simp [errMatches]
  have hany1 : (process_one rid s d).ingest_errors.any
      (errMatches rid (sha256_hex (canonical_json d))) = true := by
    rw [he1, List.any_append, hfresh]
    simp [hmatch]
  obtain ⟨c2, m2, he2, hq2⟩ := process_one_err_effects rid (process_one rid s d) d hinv
  rw [hany1, if_pos rfl] at he2
  have hbumpkey : ∀ r : ErrorRow,
      errMatches rid (sha256_hex (canonical_json d))
        ({ r with retry_count := r.retry_count + 1 }) =
      errMatches rid (sha256_hex (canonical_json d)) r := fun r => rfl
  have hfilter : (process_one rid (process_one rid s d) d).ingest_errors.filter
      (errMatches rid (sha256_hex (canonical_json d))) =
      [⟨rid, sha256_hex (canonical_json d), errCaseNumber d, c1, m1, 1⟩] := by
    rw [he2, filter_map_bump _ _ hbumpkey, he1, List.filter_append,
      filter_eq_nil_of_any_false _ _ hfresh]
    simp [List.filter_cons, hmatch]
  refine ⟨by rw [hfilter]; rfl, ?_, by rw [hq2, hq1]⟩
  intro r hr
  rw [hfilter] at hr
  simp only [List.mem_singleton] at hr
  subst hr
  rfl

/-- Sample malformed docket for the C6 witness: its `filed_date` is
calendar-impossible. -/
def c6Doc : Docket :=
  { case_number := some "1:24-cv-9", filed_date := some "13-40-2024" }

/-- C6 witness: the hypotheses hold and the theorem applies for a concrete
malformed record submitted twice to a fresh run. -/
theorem c6_witness :
    docketValid c6Doc = false ∧
    initIngest.ingest_errors.any
      (errMatches 1 (sha256_hex (canonical_json c6Doc))) = false ∧
    (((process_one 1 (process_one 1 initIngest c6Doc) c6Doc).ingest_errors.filter
        (errMatches 1 (sha256_hex (canonical_json c6Doc)))).length = 1 ∧
      (∀ r ∈ (process_one 1 (process_one 1 initIngest c6Doc) c6Doc).ingest_errors.filter
        (errMatches 1 (sha256_hex (canonical_json c6Doc))), r.retry_count = 1) ∧
      (process_one 1 (process_one 1 initIngest c6Doc) c6Doc).quarantine.length =
        initIngest.quarantine.length + 2) :=
  ⟨by decide, by decide, c6_error_dedup 1 initIngest c6Doc (by decide) (by decide)⟩

/-! ## Claim C7 — same id for same normalized key, plus variation audit -/

/-- Helper: a freshly inserted cache binding is found. -/
theorem cacheLookup_cons_self (c : List (String × Nat)) (k : String) (v : Nat) :
    cacheLookup ((k, v) :: c) k = some v := by
  simp [cacheLookup, List.find?]

/-- Behaviour of a court resolution: it returns an id, leaves the cache
holding that id under the normalized key, and upserts the raw variation. -/
theorem gocc_resolved (s : Ingest) (raw : String) (h : ¬ raw = "") :
    ∃ i t, get_or_create_court s raw = (Except.ok i, t) ∧
      cacheLookup t.courts_cache (normalize_court_name raw) = some i ∧
      t.court_name_variations = bumpVariation s.court_name_variations i raw := by
  simp only [get_or_create_court, if_neg h, record_court_variation]
  split
  · rename_i i heq
    exact ⟨i, _, rfl, heq, rfl⟩
  · split
    · rename_i row heq2
      exact ⟨row.id, _, rfl, cacheLookup_cons_self _ _ _, rfl⟩
    · exact ⟨s.next_court_id, _, rfl, cacheLookup_cons_self _ _ _, rfl⟩

/-- Behaviour of a court resolution on a cache hit: the cached id is
returned, and only the variation table changes. -/
theorem gocc_cache_hit (s : Ingest) (raw : String) (i : Nat) (h : ¬ raw = "")
    (hc : cacheLookup s.courts_cache (normalize_court_name raw) = some i) :
    get_or_create_court s raw = (Except.ok i, record_court_variation s i raw) := by
  simp only [get_or_create_court, if_neg h, hc]

/-- Behaviour of a party resolution: it returns an id, leaves the cache
holding that id under the normalized key, and upserts the raw variation. -/
theorem gocp_resolved (s : Ingest) (raw : String) (h : ¬ raw = "") :
    ∃ i t, get_or_create_party s raw = (Except.ok i, t) ∧
      cacheLookup t.parties_cache (normalize_party_name raw) = some i ∧
      t.party_name_variations = bumpVariation s.party_name_variations i raw := by
  simp only [get_or_create_party, if_neg h, record_party_variation]
  split
  · rename_i i heq
    exact ⟨i, _, rfl, heq, rfl⟩
  · split
    · rename_i row heq2
      exact ⟨row.id, _, rfl, cacheLookup_cons_self _ _ _, rfl⟩
    · exact ⟨s.next_party_id, _, rfl, cacheLookup_cons_self _ _ _, rfl⟩

/-- Behaviour of a party resolution on a cache hit. -/
theorem gocp_cache_hit (s : Ingest) (raw : String) (i : Nat) (h : ¬ raw = "")
    (hc : cacheLookup s.parties_cache (normalize_party_name raw) = some i) :
    get_or_create_party s raw = (Except.ok i, record_party_variation s i raw) := by
  simp only [get_or_create_party, if_neg h, hc]

/-- Helper: two successive variation upserts into an empty table produce one
row seen twice, or two rows seen once each. -/
theorem bump_twice_empty (i : Nat) (r1 r2 : String) :
    bumpVariation (bumpVariation [] i r1) i r2 =
      (if r1 = r2 then [⟨i, r1, 2⟩] else [⟨i, r1, 1⟩, ⟨i, r2, 1⟩]) := by
  have h1 : bumpVariation [] i r1 = [⟨i, r1, 1⟩] := rfl
  rw [h1]
  by_cases h : r1 = r2
  · subst h
    simp [bumpVariation]
  · simp [bumpVariation, h]

/-- C7: two raw spellings with the same normalized key resolve (in
sequence, from any state) to the same entity id, and each call records a
name-variation observation for its exact raw string: starting from an empty
variation table, two distinct raw strings leave two rows seen once each,
while an exactly repeated raw string leaves one row with `seen_count`
incremented to 2.  Stated for the court resolver and the party resolver,
whose get-or-create/variation code paths are identical. -/
theorem c7_resolver_same_id_and_variations (s : Ingest) (raw1 raw2 p1 p2 : String)
    (h1 : raw1 ≠ "") (h2 : raw2 ≠ "")
    (hnorm : normalize_court_name raw1 = normalize_court_name raw2)
    (hvar : s.court_name_variations = [])
    (hp1 : p1 ≠ "") (hp2 : p2 ≠ "")
    (hpnorm : normalize_party_name p1 = normalize_party_name p2)
    (hpvar : s.party_name_variations = []) :
    (∃ i t1 t2, get_or_create_court s raw1 = (Except.ok i, t1) ∧
      get_or_create_court t1 raw2 = (Except.ok i, t2) ∧
      t2.court_name_variations =
        (if raw1 = raw2 then [⟨i, raw1, 2⟩] else [⟨i, raw1, 1⟩, ⟨i, raw2, 1⟩])) ∧
    (∃ j u1 u2, get_or_create_party s p1 = (Except.ok j, u1) ∧
      get_or_create_party u1 p2 = (Except.ok j, u2) ∧
      u2.party_name_variations =
        (if p1 = p2 then [⟨j, p1, 2⟩] else [⟨j, p1, 1⟩, ⟨j, p2, 1⟩])) := by
  constructor
  · obtain ⟨i, t1, heq, hcache, hvars⟩ := gocc_resolved s raw1 h1
    have hc2 : cacheLookup t1.courts_cache (normalize_court_name raw2) = some i := by
      rw [← hnorm]; exact hcache
    refine ⟨i, t1, _, heq, gocc_cache_hit t1 raw2 i h2 hc2, ?_⟩
    show bumpVariation t1.court_name_variations i raw2 = _
    rw [hvars, hvar, bump_twice_empty]
  · obtain ⟨j, u1, heq, hcache, hvars⟩ := gocp_resolved s p1 hp1
    have hc2 : cacheLookup u1.parties_cache (normalize_party_name p2) = some j := by
      rw [← hpnorm]; exact hcache
    refine ⟨j, u1, _, heq, gocp_cache_hit u1 p2 j hp2 hc2, ?_⟩
    show bumpVariation u1.party_name_variations j p2 = _
    rw [hvars, hpvar, bump_twice_empty]

/-- C7 witness: the hypotheses hold and the theorem applies at concrete
spellings `S.D.N.Y.` / `S.D.N.Y` (court) and `Acme  Corp` / `ACME CORP`
(party) against the fresh state. -/
theorem c7_witness :
    ("S.D.N.Y." : String) ≠ "" ∧ ("S.D.N.Y" : String) ≠ "" ∧
    normalize_court_name "S.D.N.Y." = normalize_court_name "S.D.N.Y" ∧
    initIngest.court_name_variations = [] ∧
    ("Acme  Corp" : String) ≠ "" ∧ ("ACME CORP" : String) ≠ "" ∧
    normalize_party_name "Acme  Corp" = normalize_party_name "ACME CORP" ∧
    initIngest.party_name_variations = [] ∧
    ((∃ i t1 t2, get_or_create_court initIngest "S.D.N.Y." = (Except.ok i, t1) ∧
      get_or_create_court t1 "S.D.N.Y" = (Except.ok i, t2) ∧
      t2.court_name_variations =
        (if ("S.D.N.Y." : String) = "S.D.N.Y" then [⟨i, "S.D.N.Y.", 2⟩]
         else [⟨i, "S.D.N.Y.", 1⟩, ⟨i, "S.D.N.Y", 1⟩])) ∧
     (∃ j u1 u2, get_or_create_party initIngest "Acme  Corp" = (Except.ok j, u1) ∧
      get_or_create_party u1 "ACME CORP" = (Except.ok j, u2) ∧
      u2.party_name_variations =
        (if ("Acme  Corp" : String) = "ACME CORP" then [⟨j, "Acme  Corp", 2⟩]
         else [⟨j, "Acme  Corp", 1⟩, ⟨j, "ACME CORP", 1⟩]))) :=
  ⟨by decide, by decide, by decide, rfl, by decide, by decide, by decide, rfl,
   c7_resolver_same_id_and_variations initIngest "S.D.N.Y." "S.D.N.Y"
     "Acme  Corp" "ACME CORP" (by decide) (by decide) (by decide) rfl
     (by decide) (by decide) (by decide) rfl⟩

/-! ## Claim C1 — what a validation failure leaves untouched -/

/-- Frame predicate: the case, case-party and party state (with the party
cache, party variations, the case id sequence and the processed set)
agree. -/
def CasePartyFrame (a b : Ingest) : Prop :=
  b.cases = a.cases ∧ b.case_parties = a.case_parties ∧ b.parties = a.parties ∧
  b.party_name_variations = a.party_name_variations ∧
  b.parties_cache = a.parties_cache ∧ b.next_party_id = a.next_party_id ∧
  b.next_case_id = a.next_case_id ∧ b.processed_cases = a.processed_cases

/-- CasePartyFrame is reflexive. -/
theorem casePartyFrame_refl (a : Ingest) : CasePartyFrame a a :=
  ⟨rfl, rfl, rfl, rfl, rfl, rfl, rfl, rfl⟩

/-- CasePartyFrame is transitive. -/
theorem casePartyFrame_trans {a b c : Ingest}
    (h1 : CasePartyFrame a b) (h2 : CasePartyFrame b c) : CasePartyFrame a c :=
  ⟨h2.1.trans h1.1, h2.2.1.trans h1.2.1, h2.2.2.1.trans h1.2.2.1,
   h2.2.2.2.1.trans h1.2.2.2.1, h2.2.2.2.2.1.trans h1.2.2.2.2.1,
   h2.2.2.2.2.2.1.trans h1.2.2.2.2.2.1, h2.2.2.2.2.2.2.1.trans h1.2.2.2.2.2.2.1,
   h2.2.2.2.2.2.2.2.trans h1.2.2.2.2.2.2.2⟩

/-- Court resolution preserves the case/party frame. -/
theorem gocc_caseparty (s : Ingest) (nm : String) :
    CasePartyFrame s (get_or_create_court s nm).2 := by
  obtain ⟨a, b, c, v, h⟩ := gocc_shape s nm
  rw [h]
  exact ⟨rfl, rfl, rfl, rfl, rfl, rfl, rfl, rfl⟩

/-- Judge resolution preserves the case/party frame. -/
theorem gocj_caseparty (s : Ingest) (nm : Option String) :
    CasePartyFrame s (get_or_create_judge s nm).2 := by
  obtain ⟨a, b, c, v, h⟩ := gocj_shape s nm
  rw [h]
  exact ⟨rfl, rfl, rfl, rfl, rfl, rfl, rfl, rfl⟩

/-- Case-type resolution preserves the case/party frame. -/
theorem gocct_caseparty (s : Ingest) (nm : String) :
    CasePartyFrame s (get_or_create_case_type s nm).2 := by
  obtain ⟨a, b, c, h⟩ := gocct_shape s nm
  rw [h]
  exact ⟨rfl, rfl, rfl, rfl, rfl, rfl, rfl, rfl⟩

/-- A record that fails validation makes no writes to the cases,
case-parties or parties state: every raise happens before the upsert and
before the party loop. -/
theorem pd_err_frame (s : Ingest) (d : Docket) (e : String) (t : Ingest)
    (h : process_docket s d = (Except.error e, t)) : CasePartyFrame s t := by
  simp only [process_docket] at h
  split at h
  · rw [Prod.mk.injEq] at h
    rw [← h.2]
    exact casePartyFrame_refl s
  · split at h
    · rw [Prod.mk.injEq] at h
      rw [← h.2]
      exact casePartyFrame_refl s
    · split at h
      · rename_i heq
        rw [Prod.mk.injEq] at h
        have hc := gocc_caseparty s (docketCourtRaw d)
        rw [heq] at hc
        rw [← h.2]
        exact hc
      · rename_i court_id s1 heq
        have hc : CasePartyFrame s s1 := by
          have h0 := gocc_caseparty s (docketCourtRaw d)
          rw [heq] at h0
          exact h0
        have hj : CasePartyFrame s1 (get_or_create_judge s1 d.judge).2 :=
          gocj_caseparty s1 d.judge
        split at h
        · rename_i heq2
          rw [Prod.mk.injEq] at h
          have hct := gocct_caseparty (get_or_create_judge s1 d.judge).2
            (docketCaseTypeRaw d)
          rw [heq2] at hct
          rw [← h.2]
          exact casePartyFrame_trans (casePartyFrame_trans hc hj) hct
        · rename_i case_type_id s3 heq2
          have hct : CasePartyFrame (get_or_create_judge s1 d.judge).2 s3 := by
            have h0 := gocct_caseparty (get_or_create_judge s1 d.judge).2
              (docketCaseTypeRaw d)
            rw [heq2] at h0
            exact h0
          split at h
          · rw [Prod.mk.injEq] at h
            rw [← h.2]
            exact casePartyFrame_trans (casePartyFrame_trans hc hj) hct
          · cases h

/-- Sample docket for the C1 counterexample: a fresh court and judge, a
parsable date, but a status outside the closed set. -/
def c1Doc : Docket :=
  { case_number := some "1:24-cv-300", filed_date := some "1-2-2024",
    court := some "N.D. Cal.", judge := some "Hon. Maria Rodriguez",
    status := some "archived" }

/-- C1 counterexample: this record fails validation (bad status), yet
processing it from the empty store creates a court row, a judge row, a case
type row and name-variation rows — the claim that all seven tables are left
exactly as they were is false. -/
theorem c1_counterexample :
    exceptIsOk (process_docket initIngest c1Doc).1 = false ∧
    (process_docket initIngest c1Doc).2.courts ≠ initIngest.courts ∧
    (process_docket initIngest c1Doc).2.judges ≠ initIngest.judges ∧
    (process_docket initIngest c1Doc).2.case_types ≠ initIngest.case_types ∧
    (process_docket initIngest c1Doc).2.court_name_variations ≠
      initIngest.court_name_variations := by
  decide

/-- C1 (amended): a record that fails a validation step makes no writes to
the cases, case_parties and parties tables (nor to the party variations,
the party cache, the id sequences for parties and cases, or the
processed-case set) — but entity-resolution writes of steps that already
succeeded (courts, judges, case_types and their name variations) do
persist, because the status check runs after entity resolution and nothing
is rolled back per record. -/
theorem c1_amended_no_case_or_party_writes_on_failure (s : Ingest) (d : Docket)
    (e : String) (t : Ingest) (h : process_docket s d = (Except.error e, t)) :
    t.cases = s.cases ∧ t.case_parties = s.case_parties ∧
    t.parties = s.parties ∧ t.party_name_variations = s.party_name_variations ∧
    t.next_case_id = s.next_case_id ∧ t.processed_cases = s.processed_cases := by
  obtain ⟨h1, h2, h3, h4, h5, h6, h7, h8⟩ := pd_err_frame s d e t h
  exact ⟨h1, h2, h3, h4, h7, h8⟩

/-- C1 witness: the amended theorem applies at the concrete bad-status
record against the fresh store. -/
theorem c1_witness :
    ∃ e t, process_docket initIngest c1Doc = (Except.error e, t) ∧
      t.cases = initIngest.cases ∧ t.case_parties = initIngest.case_parties ∧
      t.parties = initIngest.parties ∧
      t.party_name_variations = initIngest.party_name_variations ∧
      t.next_case_id = initIngest.next_case_id ∧
      t.processed_cases = initIngest.processed_cases := by
  have h1 : (process_docket initIngest c1Doc).1 = Except.error
      "Invalid status archived. Must be one of: active, closed, pending, dismissed" := by
    decide
  have h : process_docket initIngest c1Doc = (Except.error
      "Invalid status archived. Must be one of: active, closed, pending, dismissed",
      (process_docket initIngest c1Doc).2) := by
    rw [← h1]
  exact ⟨_, _, h, c1_amended_no_case_or_party_writes_on_failure _ _ _ _ h⟩

/-! ## Claim C2 — idempotence machinery.  Part A: monotone state facts. -/

/-- Monotone partial-map order: every binding is preserved. -/
def pmLE (f g : String → Option Nat) : Prop :=
  ∀ k v, f k = some v → g k = some v

/-- Court cache as a partial map. -/
def courtsCacheF (s : Ingest) : String → Option Nat :=
  fun k => cacheLookup s.courts_cache k

/-- Judge cache as a partial map. -/
def judgesCacheF (s : Ingest) : String → Option Nat :=
  fun k => cacheLookup s.judges_cache k

/-- Case-type cache as a partial map. -/
def caseTypesCacheF (s : Ingest) : String → Option Nat :=
  fun k => cacheLookup s.case_types_cache k

/-- Party cache as a partial map. -/
def partiesCacheF (s : Ingest) : String → Option Nat :=
  fun k => cacheLookup s.parties_cache k

/-- Case ids by business key. -/
def lookupId (cs : List CaseRow) (k : String) : Option Nat :=
  (cs.find? (fun r => r.case_number == k)).map (fun r => r.id)

/-- Case table of a state as a partial map from business key to row id. -/
def caseIdF (s : Ingest) : String → Option Nat :=
  fun k => lookupId s.cases k

/-- Monotonicity invariant of one processing step: cache bindings, case ids
and case-party links are never lost or rebound. -/
def Mono (a b : Ingest) : Prop :=
  pmLE (courtsCacheF a) (courtsCacheF b) ∧
  pmLE (judgesCacheF a) (judgesCacheF b) ∧
  pmLE (caseTypesCacheF a) (caseTypesCacheF b) ∧
  pmLE (partiesCacheF a) (partiesCacheF b) ∧
  pmLE (caseIdF a) (caseIdF b) ∧
  (∀ t ∈ a.case_parties, t ∈ b.case_parties)

/-- Mono is reflexive. -/
theorem mono_refl (a : Ingest) : Mono a a :=
  ⟨fun _ _ h => h, fun _ _ h => h, fun _ _ h => h, fun _ _ h => h,
   fun _ _ h => h, fun _ ht => ht⟩

/-- Mono is transitive. -/
theorem mono_trans {a b c : Ingest} (h1 : Mono a b) (h2 : Mono b c) : Mono a c :=
  ⟨fun k v h => h2.1 k v (h1.1 k v h),
   fun k v h => h2.2.1 k v (h1.2.1 k v h),
   fun k v h => h2.2.2.1 k v (h1.2.2.1 k v h),
   fun k v h => h2.2.2.2.1 k v (h1.2.2.2.1 k v h),
   fun k v h => h2.2.2.2.2.1 k v (h1.2.2.2.2.1 k v h),
   fun t ht => h2.2.2.2.2.2 t (h1.2.2.2.2.2 t ht)⟩

/-- Helper: inserting a fresh key in front of a cache keeps every existing
binding reachable. -/
theorem cacheLookup_cons_of_some (c : List (String × Nat)) (k0 : String) (v0 : Nat)
    {k : String} {v : Nat} (h : cacheLookup c k = some v)
    (h0 : cacheLookup c k0 = none) : cacheLookup ((k0, v0) :: c) k = some v := by
  have hne : k0 ≠ k := by
    intro he
    rw [he, h] at h0
    cases h0
  have hb : (k0 == k) = false := by simp [hne]
  simp only [cacheLookup, List.find?, hb]
  exact h

/-- Court resolution is monotone. -/
theorem mono_gocc (s : Ingest) (nm : String) :
    Mono s (get_or_create_court s nm).2 := by
  simp only [get_or_create_court, record_court_variation]
  split
  · exact mono_refl s
  · split
    · exact ⟨fun _ _ h => h, fun _ _ h => h, fun _ _ h => h, fun _ _ h => h,
        fun _ _ h => h, fun _ ht => ht⟩
    · rename_i hnone
      split
      · exact ⟨fun k v h => cacheLookup_cons_of_some _ _ _ h hnone,
          fun _ _ h => h, fun _ _ h => h, fun _ _ h => h,
          fun _ _ h => h, fun _ ht => ht⟩
      · exact ⟨fun k v h => cacheLookup_cons_of_some _ _ _ h hnone,
          fun _ _ h => h, fun _ _ h => h, fun _ _ h => h,
          fun _ _ h => h, fun _ ht => ht⟩

/-- Judge resolution is monotone. -/
theorem mono_gocj (s : Ingest) (j : Option String) :
    Mono s (get_or_create_judge s j).2 := by
  simp only [get_or_create_judge, record_judge_variation]
  split
  · exact mono_refl s
  · split
    · exact mono_refl s
    · split
      · exact mono_refl s
      · split
        · exact ⟨fun _ _ h => h, fun _ _ h => h, fun _ _ h => h, fun _ _ h => h,
            fun _ _ h => h, fun _ ht => ht⟩
        · rename_i hnone
          split
          · exact ⟨fun _ _ h => h,
              fun k v h => cacheLookup_cons_of_some _ _ _ h hnone,
              fun _ _ h => h, fun _ _ h => h, fun _ _ h => h, fun _ ht => ht⟩
          · exact ⟨fun _ _ h => h,
              fun k v h => cacheLookup_cons_of_some _ _ _ h hnone,
              fun _ _ h => h, fun _ _ h => h, fun _ _ h => h, fun _ ht => ht⟩

/-- Case-type resolution is monotone. -/
theorem mono_gocct (s : Ingest) (nm : String) :
    Mono s (get_or_create_case_type s nm).2 := by
  simp only [get_or_create_case_type]
  split
  · exact mono_refl s
  · split
    · exact mono_refl s
    · rename_i hnone
      split
      · exact ⟨fun _ _ h => h, fun _ _ h => h,
          fun k v h => cacheLookup_cons_of_some _ _ _ h hnone,
          fun _ _ h => h, fun _ _ h => h, fun _ ht => ht⟩
      · exact ⟨fun _ _ h => h, fun _ _ h => h,
          fun k v h => cacheLookup_cons_of_some _ _ _ h hnone,
          fun _ _ h => h, fun _ _ h => h, fun _ ht => ht⟩

/-- Party resolution is monotone. -/
theorem mono_gocp (s : Ingest) (nm : String) :
    Mono s (get_or_create_party s nm).2 := by
  simp only [get_or_create_party, record_party_variation]
  split
  · exact mono_refl s
  · split
    · exact ⟨fun _ _ h => h, fun _ _ h => h, fun _ _ h => h, fun _ _ h => h,
        fun _ _ h => h, fun _ ht => ht⟩
    · rename_i hnone
      split
      · exact ⟨fun _ _ h => h, fun _ _ h => h, fun _ _ h => h,
          fun k v h => cacheLookup_cons_of_some _ _ _ h hnone,
          fun _ _ h => h, fun _ ht => ht⟩
      · exact ⟨fun _ _ h => h, fun _ _ h => h, fun _ _ h => h,
          fun k v h => cacheLookup_cons_of_some _ _ _ h hnone,
          fun _ _ h => h, fun _ ht => ht⟩

/-- Helper: `find?` returns the same hit after appending. -/
theorem find?_append_some {α : Type} (p : α → Bool) (l1 l2 : List α) (a : α)
    (h : l1.find? p = some a) : (l1 ++ l2).find? p = some a := by
  induction l1 with
  | nil => cases h
  | cons x l1 ih =>
    by_cases hp : p x = true
    · simp only [List.find?, hp] at h
      simp only [List.cons_append, List.find?, hp]
      exact h
    · have hp' : p x = false := by simpa using hp
      simp only [List.find?, hp'] at h
      simp only [List.cons_append, List.find?, hp']
      exact ih h

/-- Conditional overwrite keeps the business key. -/
theorem setFieldsIf_key (k0 : String) (f : CaseFields) (r : CaseRow) :
    (if r.case_number == k0 then setFields r f else r).case_number =
      r.case_number := by
  split <;> rfl

/-- Conditional overwrite keeps the row id. -/
theorem setFieldsIf_id (k0 : String) (f : CaseFields) (r : CaseRow) :
    (if r.case_number == k0 then setFields r f else r).id = r.id := by
  split <;> rfl

/-- An update-style upsert changes no key-to-id association. -/
theorem lookupId_map_setFieldsIf (k0 : String) (f : CaseFields)
    (cs : List CaseRow) (k : String) :
    lookupId (cs.map (fun r => if r.case_number == k0 then setFields r f else r)) k =
      lookupId cs k := by
  induction cs with
  | nil => rfl
  | cons r cs ih =>
    simp only [List.map_cons, lookupId, List.find?, setFieldsIf_key]
    by_cases hp : (r.case_number == k) = true
    · simp only [hp, Option.map_some', setFieldsIf_id]
    · have hp' : (r.case_number == k) = false := by simpa using hp
      simp only [hp']
      simpa [lookupId] using ih

/-- The case upsert never loses or rebinds an existing key-to-id
association. -/
theorem lookupId_upsert_mono (cs : List CaseRow) (n : Nat) (k0 : String)
    (f : CaseFields) (k : String) (v : Nat) (h : lookupId cs k = some v) :
    lookupId (upsertCase cs n k0 f).cases k = some v := by
  unfold upsertCase
  split
  · rw [lookupId_map_setFieldsIf]
    exact h
  · obtain ⟨row, hrow, hid⟩ : ∃ row,
        cs.find? (fun r => r.case_number == k) = some row ∧ row.id = v := by
      unfold lookupId at h
      cases hf : cs.find? (fun r => r.case_number == k) with
      | none => rw [hf] at h; cases h
      | some row =>
        rw [hf] at h
        exact ⟨row, rfl, by simpa using h⟩
    unfold lookupId
    rw [find?_append_some _ _ _ _ hrow]
    simp [hid]

/-- Adding a link keeps all existing links. -/
theorem mem_addCaseParty_of_mem (l : List CasePartyRow) (t x : CasePartyRow)
    (hx : x ∈ l) : x ∈ addCaseParty l t := by
  unfold addCaseParty
  split
  · exact hx
  · exact List.mem_append_left _ hx

/-- The added link is present afterwards. -/
theorem mem_addCaseParty_self (l : List CasePartyRow) (t : CasePartyRow) :
    t ∈ addCaseParty l t := by
  unfold addCaseParty
  split
  · rename_i h
    exact List.mem_of_elem_eq_true h
  · exact List.mem_append_right _ (by simp)

/-- The party loop is monotone. -/
theorem mono_link (cid : Nat) (ps : List (String × String)) :
    ∀ s, Mono s (link_parties s cid ps) := by
  induction ps with
  | nil => exact fun s => mono_refl s
  | cons p ps ih =>
    intro s
    simp only [link_parties]
    split
    · rename_i e s1 heq
      have h1 := mono_gocp s p.1
      rw [heq] at h1
      exact mono_trans h1 (ih s1)
    · rename_i pid s1 heq
      have h1 := mono_gocp s p.1
      rw [heq] at h1
      have h2 : Mono s1
          { s1 with case_parties := addCaseParty s1.case_parties ⟨cid, pid, p.2⟩ } :=
        ⟨fun _ _ h => h, fun _ _ h => h, fun _ _ h => h, fun _ _ h => h,
         fun _ _ h => h, fun t ht => mem_addCaseParty_of_mem _ _ _ ht⟩
      exact mono_trans h1 (mono_trans h2 (ih _))

/-- Record processing is monotone on either outcome. -/
theorem mono_pd (s : Ingest) (d : Docket) : Mono s (process_docket s d).2 := by
  simp only [process_docket]
  split
  · exact mono_refl s
  · split
    · exact mono_refl s
    · split
      · rename_i heq
        have hc := mono_gocc s (docketCourtRaw d)
        rw [heq] at hc
        exact hc
      · rename_i court_id s1 heq
        have hc : Mono s s1 := by
          have h0 := mono_gocc s (docketCourtRaw d)
          rw [heq] at h0
          exact h0
        have hj : Mono s1 (get_or_create_judge s1 d.judge).2 :=
          mono_gocj s1 d.judge
        split
        · rename_i heq2
          have hct := mono_gocct (get_or_create_judge s1 d.judge).2
            (docketCaseTypeRaw d)
          rw [heq2] at hct
          exact mono_trans (mono_trans hc hj) hct
        · rename_i case_type_id s3 heq2
          have hct : Mono (get_or_create_judge s1 d.judge).2 s3 := by
            have h0 := mono_gocct (get_or_create_judge s1 d.judge).2
              (docketCaseTypeRaw d)
            rw [heq2] at h0
            exact h0
          have hbase := mono_trans (mono_trans hc hj) hct
          split
          · exact hbase
          · refine mono_trans hbase (mono_trans ?_ (mono_link _ _ _))
            exact ⟨fun _ _ h => h, fun _ _ h => h, fun _ _ h => h, fun _ _ h => h,
              fun k v h => lookupId_upsert_mono _ _ _ _ k v h, fun _ ht => ht⟩

/-- One driver iteration is monotone. -/
theorem mono_process_one (rid : Nat) (s : Ingest) (d : Docket) :
    Mono s (process_one rid s d) := by
  simp only [process_one]
  split
  · rename_i a s1 heq
    have h0 := mono_pd { s with read := s.read + 1 } d
    rw [heq] at h0
    split
    · exact h0
    · split
      · exact h0
      · exact h0
  · rename_i e s1 heq
    have h0 := mono_pd { s with read := s.read + 1 } d
    rw [heq] at h0
    obtain ⟨E, hre⟩ := re_shape (write_quarantine_jsonl s1 rid d
      (determine_error_code e) e) rid d (determine_error_code e) e (errCaseNumber d)
    rw [hre, wq_shape]
    exact h0

/-- The record loop of a run, without the counter reset. -/
def runB (rid : Nat) (batch : List Docket) (s : Ingest) : Ingest :=
  batch.foldl (process_one rid) s

/-- The driver is the record loop after a counter reset. -/
theorem ingest_batch_eq_runB (rid : Nat) (s : Ingest) (batch : List Docket) :
    ingest_batch rid s batch =
      runB rid batch { s with read := 0, inserted := 0, updated := 0, failed := 0 } := rfl

/-- The record loop is monotone. -/
theorem mono_runB (rid : Nat) (batch : List Docket) :
    ∀ s, Mono s (runB rid batch s) := by
  induction batch with
  | nil => exact fun s => mono_refl s
  | cons d batch ih =>
    intro s
    exact mono_trans (mono_process_one rid s d) (ih (process_one rid s d))

/-! ## Claim C2 machinery.  Part C: exact step effects of a record. -/

/-- Normalized cache key the judge resolver would use, or `none` when the
record has no (usable) judge reference. -/
def judgeKey (j : Option String) : Option String :=
  match j with
  | none => none
  | some jn =>
    if jn = "" then none
    else if normalize_judge_name jn = "" then none
    else some (normalize_judge_name jn)

/-- With no usable judge reference the resolver is the identity. -/
theorem gocj_none (s : Ingest) (j : Option String) (h : judgeKey j = none) :
    get_or_create_judge s j = (none, s) := by
  cases j with
  | none => rfl
  | some jn =>
    simp only [judgeKey] at h
    by_cases h1 : jn = ""
    · simp [get_or_create_judge, h1]
    · rw [if_neg h1] at h
      by_cases h2 : normalize_judge_name jn = ""
      · simp [get_or_create_judge, h1, h2]
      · rw [if_neg h2] at h
        cases h

/-- With a usable judge reference the resolver returns an id and leaves the
cache holding it under the judge key. -/
theorem gocj_resolved_some (s : Ingest) (j : Option String) (k : String)
    (h : judgeKey j = some k) :
    ∃ i, (get_or_create_judge s j).1 = some i ∧
      judgesCacheF (get_or_create_judge s j).2 k = some i := by
  cases j with
  | none => cases h
  | some jn =>
    simp only [judgeKey] at h
    by_cases h1 : jn = ""
    · rw [if_pos h1] at h; cases h
    · rw [if_neg h1] at h
      by_cases h2 : normalize_judge_name jn = ""
      · rw [if_pos h2] at h; cases h
      · rw [if_neg h2] at h
        injection h with h3
        subst h3
        simp only [get_or_create_judge, if_neg h1, if_neg h2, record_judge_variation]
        split
        · rename_i i heq
          exact ⟨i, rfl, heq⟩
        · split
          · rename_i row heq2
            exact ⟨row.id, rfl, cacheLookup_cons_self _ _ _⟩
          · exact ⟨s.next_judge_id, rfl, cacheLookup_cons_self _ _ _⟩

/-- Behaviour of a case-type resolution: it returns an id and leaves the
cache holding it under the lowercased stripped key. -/
theorem gocct_resolved (s : Ingest) (raw : String) (h : ¬ raw = "") :
    ∃ i t, get_or_create_case_type s raw = (Except.ok i, t) ∧
      caseTypesCacheF t (pyStrip (toLowerStr raw)) = some i := by
  simp only [get_or_create_case_type, if_neg h]
  split
  · rename_i i heq
    exact ⟨i, s, rfl, heq⟩
  · split
    · rename_i row heq2
      exact ⟨row.id, _, rfl, cacheLookup_cons_self _ _ _⟩
    · exact ⟨s.next_case_type_id, _, rfl, cacheLookup_cons_self _ _ _⟩

/-- Record processing succeeds exactly on valid records. -/
theorem pd_ok_iff (s : Ingest) (d : Docket) :
    (∃ a t, process_docket s d = (Except.ok a, t)) ↔ docketValid d = true := by
  constructor
  · rintro ⟨a, t, h⟩
    by_contra hv
    have hv' : docketValid d = false := by simpa using hv
    obtain ⟨e, t', h2⟩ := pd_err_of_invalid s d hv'
    rw [h] at h2
    simp at h2
  · exact pd_ok_of_valid s d

/-- Judge resolution leaves the court cache alone. -/
theorem gocj_courts_cache (s : Ingest) (j : Option String) :
    (get_or_create_judge s j).2.courts_cache = s.courts_cache := by
  obtain ⟨a, b, c, v, h⟩ := gocj_shape s j
  rw [h]

/-- Case-type resolution leaves the court cache alone. -/
theorem gocct_courts_cache (s : Ingest) (nm : String) :
    (get_or_create_case_type s nm).2.courts_cache = s.courts_cache := by
  obtain ⟨a, b, c, h⟩ := gocct_shape s nm
  rw [h]

/-- Case-type resolution leaves the judge cache alone. -/
theorem gocct_judges_cache (s : Ingest) (nm : String) :
    (get_or_create_case_type s nm).2.judges_cache = s.judges_cache := by
  obtain ⟨a, b, c, h⟩ := gocct_shape s nm
  rw [h]

/-- The party loop leaves the court cache alone. -/
theorem link_courts_cache (st : Ingest) (cid : Nat) (ps : List (String × String)) :
    (link_parties st cid ps).courts_cache = st.courts_cache := by
  obtain ⟨a, b, c, v, cp, h⟩ := link_parties_shape cid ps st
  rw [h]

/-- The party loop leaves the judge cache alone. -/
theorem link_judges_cache (st : Ingest) (cid : Nat) (ps : List (String × String)) :
    (link_parties st cid ps).judges_cache = st.judges_cache := by
  obtain ⟨a, b, c, v, cp, h⟩ := link_parties_shape cid ps st
  rw [h]

/-- The party loop leaves the case-type cache alone. -/
theorem link_case_types_cache (st : Ingest) (cid : Nat) (ps : List (String × String)) :
    (link_parties st cid ps).case_types_cache = st.case_types_cache := by
  obtain ⟨a, b, c, v, cp, h⟩ := link_parties_shape cid ps st
  rw [h]

/-- The party loop leaves the case id sequence alone. -/
theorem link_next_case_id (st : Ingest) (cid : Nat) (ps : List (String × String)) :
    (link_parties st cid ps).next_case_id = st.next_case_id := by
  obtain ⟨a, b, c, v, cp, h⟩ := link_parties_shape cid ps st
  rw [h]

/-- Exact effect of processing a valid record on the cases table: it is the
upsert of fields read back from the result state's caches.  The returned
witnesses `ci`, `ti`, `ji` are the resolved court, case-type and judge ids,
each still bound in the result state's cache under the record's normalized
key. -/
theorem pd_ok_effects (s : Ingest) (d : Docket) (hv : docketValid d = true) :
    ∃ a t fd ci ti ji,
      process_docket s d = (Except.ok a, t) ∧
      parse_date (some (d.filed_date.getD "")) = Except.ok fd ∧
      courtsCacheF t (normalize_court_name (docketCourtRaw d)) = some ci ∧
      caseTypesCacheF t (pyStrip (toLowerStr (docketCaseTypeRaw d))) = some ti ∧
      (match judgeKey d.judge with
       | none => ji = none
       | some k => ∃ i, ji = some i ∧ judgesCacheF t k = some i) ∧
      t.cases = (upsertCase s.cases s.next_case_id (docketCaseNumber d)
        ⟨ci, d.title.getD "", fd, ti, ji, d.docket_text.getD "",
         docketStatus d⟩).cases ∧
      t.next_case_id = (upsertCase s.cases s.next_case_id (docketCaseNumber d)
        ⟨ci, d.title.getD "", fd, ti, ji, d.docket_text.getD "",
         docketStatus d⟩).next_case_id := by
  have hv' := hv
  simp only [docketValid, Bool.and_eq_true, bne_iff_ne, ne_eq] at hv'
  obtain ⟨⟨⟨⟨hcn, hdate⟩, hcourt⟩, hct⟩, hstatus⟩ := hv'
  obtain ⟨fd, hfd⟩ := exceptIsOk_ok hdate
  obtain ⟨ci, t1, heq1, hcache1, _⟩ := gocc_resolved s (docketCourtRaw d) hcourt
  obtain ⟨ti, t3, heq3, hcache3⟩ :=
    gocct_resolved (get_or_create_judge t1 d.judge).2 (docketCaseTypeRaw d) hct
  have hcpf : CasePartyFrame s t3 := by
    have h1 : CasePartyFrame s t1 := by
      have h0 := gocc_caseparty s (docketCourtRaw d)
      rw [heq1] at h0
      exact h0
    have h2 := gocj_caseparty t1 d.judge
    have h3 : CasePartyFrame (get_or_create_judge t1 d.judge).2 t3 := by
      have h0 := gocct_caseparty (get_or_create_judge t1 d.judge).2
        (docketCaseTypeRaw d)
      rw [heq3] at h0
      exact h0
    exact casePartyFrame_trans (casePartyFrame_trans h1 h2) h3
  simp only [process_docket, if_neg hcn, hfd, heq1, heq3, hstatus,
    Bool.not_true, Bool.false_eq_true, if_false]
  refine ⟨_, _, fd, ci, ti, (get_or_create_judge t1 d.judge).1, rfl, rfl,
    ?_, ?_, ?_, ?_, ?_⟩
  · show cacheLookup (link_parties _ _ _).courts_cache _ = some ci
    rw [link_courts_cache]
    have h1 : t3.courts_cache = (get_or_create_judge t1 d.judge).2.courts_cache := by
      have h0 := gocct_courts_cache (get_or_create_judge t1 d.judge).2
        (docketCaseTypeRaw d)
      rw [heq3] at h0
      exact h0
    show cacheLookup t3.courts_cache _ = some ci
    rw [h1, gocj_courts_cache t1 d.judge]
    exact hcache1
  · show cacheLookup (link_parties _ _ _).case_types_cache _ = some ti
    rw [link_case_types_cache]
    exact hcache3
  · cases hk : judgeKey d.judge with
    | none =>
      have := gocj_none t1 d.judge hk
      rw [this]
    | some k =>
      obtain ⟨i, hji, hbound⟩ := gocj_resolved_some t1 d.judge k hk
      refine ⟨i, hji, ?_⟩
      show cacheLookup (link_parties _ _ _).judges_cache k = some i
      rw [link_judges_cache]
      have h1 : t3.judges_cache = (get_or_create_judge t1 d.judge).2.judges_cache := by
        have h0 := gocct_judges_cache (get_or_create_judge t1 d.judge).2
          (docketCaseTypeRaw d)
        rw [heq3] at h0
        exact h0
      show cacheLookup t3.judges_cache k = some i
      rw [h1]
      exact hbound
  · rw [link_parties_cases]
    show (upsertCase t3.cases t3.next_case_id _ _).cases = _
    rw [hcpf.1, hcpf.2.2.2.2.2.2.1]
  · rw [link_next_case_id]
    show (upsertCase t3.cases t3.next_case_id _ _).next_case_id = _
    rw [hcpf.1, hcpf.2.2.2.2.2.2.1]

/-! ## Claim C2 machinery.  Part D: the run's effect on the cases table,
replayed through a cache view. -/

/-- View of the three caches the case upsert reads from. -/
structure CacheView where
  cc : String → Option Nat
  jc : String → Option Nat
  tc : String → Option Nat

/-- Cache view of a state. -/
def cachesView (s : Ingest) : CacheView :=
  ⟨courtsCacheF s, judgesCacheF s, caseTypesCacheF s⟩

/-- Binding-preservation order on cache views. -/
def cvLE (A B : CacheView) : Prop :=
  pmLE A.cc B.cc ∧ pmLE A.jc B.jc ∧ pmLE A.tc B.tc

/-- cvLE is reflexive. -/
theorem cvLE_refl (A : CacheView) : cvLE A A :=
  ⟨fun _ _ h => h, fun _ _ h => h, fun _ _ h => h⟩

/-- cvLE is transitive. -/
theorem cvLE_trans {A B C : CacheView} (h1 : cvLE A B) (h2 : cvLE B C) :
    cvLE A C :=
  ⟨fun k v h => h2.1 k v (h1.1 k v h), fun k v h => h2.2.1 k v (h1.2.1 k v h),
   fun k v h => h2.2.2 k v (h1.2.2 k v h)⟩

/-- Mono restricts to the cache view. -/
theorem mono_cvLE {a b : Ingest} (h : Mono a b) :
    cvLE (cachesView a) (cachesView b) :=
  ⟨h.1, h.2.1, h.2.2.1⟩

/-- Judge id a record resolves to, read from a judge-cache view. -/
def judgeIdK (jc : String → Option Nat) (j : Option String) : Option Nat :=
  match judgeKey j with
  | none => none
  | some k => jc k

/-- Case fields a valid record writes, read from a cache view. -/
def writeFieldsK (K : CacheView) (d : Docket) (fd : YMD) : CaseFields :=
  ⟨(K.cc (normalize_court_name (docketCourtRaw d))).getD 0,
   d.title.getD "", fd,
   (K.tc (pyStrip (toLowerStr (docketCaseTypeRaw d)))).getD 0,
   judgeIdK K.jc d.judge,
   d.docket_text.getD "", docketStatus d⟩

/-- Abstract replay of one record against the cases table: a valid record
upserts its fields (as read from the cache view), an invalid one does
nothing. -/
def stepCW (K : CacheView) (p : List CaseRow × Nat) (d : Docket) :
    List CaseRow × Nat :=
  if docketValid d = true then
    match parse_date (some (d.filed_date.getD "")) with
    | Except.ok fd =>
      ((upsertCase p.1 p.2 (docketCaseNumber d) (writeFieldsK K d fd)).cases,
       (upsertCase p.1 p.2 (docketCaseNumber d) (writeFieldsK K d fd)).next_case_id)
    | Except.error _ => p
  else p

/-- An invalid record leaves the cases table and its id sequence alone. -/
theorem process_one_err_cases (rid : Nat) (s : Ingest) (d : Docket)
    (h : docketValid d = false) :
    (process_one rid s d).cases = s.cases ∧
    (process_one rid s d).next_case_id = s.next_case_id := by
  simp only [process_one]
  split
  · rename_i a s1 heq
    exact absurd ((pd_ok_iff _ d).1 ⟨a, s1, heq⟩) (by simp [h])
  · rename_i e s1 heq
    have hf := pd_err_frame _ d e s1 heq
    obtain ⟨E, hre⟩ := re_shape (write_quarantine_jsonl s1 rid d
      (determine_error_code e) e) rid d (determine_error_code e) e (errCaseNumber d)
    rw [hre, wq_shape]
    exact ⟨hf.1, hf.2.2.2.2.2.2.1⟩

/-- A valid record's effect on the cases table is the abstract replay
against any cache view that extends the step's final caches. -/
theorem process_one_ok_cases (rid : Nat) (s : Ingest) (d : Docket) (K : CacheView)
    (h : docketValid d = true)
    (hK : cvLE (cachesView (process_one rid s d)) K) :
    ((process_one rid s d).cases, (process_one rid s d).next_case_id) =
      stepCW K (s.cases, s.next_case_id) d := by
  obtain ⟨a, t, fd, ci, ti, ji, heq, hfd, hcc, htc, hjj, hcases, hnid⟩ :=
    pd_ok_effects { s with read := s.read + 1 } d h
  have hpo : ∃ X : Ingest, process_one rid s d = X ∧ X.cases = t.cases ∧
      X.next_case_id = t.next_case_id ∧ X.courts_cache = t.courts_cache ∧
      X.judges_cache = t.judges_cache ∧ X.case_types_cache = t.case_types_cache := by
    simp only [process_one, heq]
    split
    · exact ⟨_, rfl, rfl, rfl, rfl, rfl, rfl⟩
    · split
      · exact ⟨_, rfl, rfl, rfl, rfl, rfl, rfl⟩
      · exact ⟨_, rfl, rfl, rfl, rfl, rfl, rfl⟩
  obtain ⟨X, hX, hXc, hXn, hXcc, hXjc, hXtc⟩ := hpo
  rw [hX] at hK ⊢
  have h1 : K.cc (normalize_court_name (docketCourtRaw d)) = some ci := by
    apply hK.1
    show cacheLookup X.courts_cache _ = some ci
    rw [hXcc]
    exact hcc
  have h2 : K.tc (pyStrip (toLowerStr (docketCaseTypeRaw d))) = some ti := by
    apply hK.2.2
    show cacheLookup X.case_types_cache _ = some ti
    rw [hXtc]
    exact htc
  have h3 : judgeIdK K.jc d.judge = ji := by
    cases hk : judgeKey d.judge with
    | none =>
      have hjj' : ji = none := by rw [hk] at hjj; exact hjj
      simp only [judgeIdK, hk]
      exact hjj'.symm
    | some k =>
      have hjj' : ∃ i, ji = some i ∧ judgesCacheF t k = some i := by
        rw [hk] at hjj; exact hjj
      obtain ⟨i, hji, hbound⟩ := hjj'
      have h4 : K.jc k = some i := by
        apply hK.2.1
        show cacheLookup X.judges_cache k = some i
        rw [hXjc]
        exact hbound
      simp only [judgeIdK, hk]
      rw [h4, hji]
  have hfields : writeFieldsK K d fd =
      ⟨ci, d.title.getD "", fd, ti, ji, d.docket_text.getD "", docketStatus d⟩ := by
    unfold writeFieldsK
    rw [h1, h2, h3]
    rfl
  simp only [stepCW, if_pos h, hfd]
  rw [hfields, hXc, hXn, hcases, hnid]

/-- The whole record loop's effect on the cases table is the abstract
replay of the batch against any cache view extending the final caches. -/
theorem run_cases_eq (rid : Nat) (batch : List Docket) :
    ∀ (s : Ingest) (K : CacheView),
      cvLE (cachesView (runB rid batch s)) K →
      ((runB rid batch s).cases, (runB rid batch s).next_case_id) =
        batch.foldl (stepCW K) (s.cases, s.next_case_id) := by
  induction batch with
  | nil => intro s K _; rfl
  | cons d batch ih =>
    intro s K hK
    have hK' : cvLE (cachesView (runB rid batch (process_one rid s d))) K := hK
    have hstep : ((process_one rid s d).cases, (process_one rid s d).next_case_id) =
        stepCW K (s.cases, s.next_case_id) d := by
      by_cases hv : docketValid d = true
      · apply process_one_ok_cases rid s d K hv
        exact cvLE_trans
          (mono_cvLE (mono_runB rid batch (process_one rid s d))) hK'
      · have hv' : docketValid d = false := by simpa using hv
        obtain ⟨h1, h2⟩ := process_one_err_cases rid s d hv'
        rw [stepCW, if_neg (by simp [hv']), h1, h2]
    show ((runB rid batch (process_one rid s d)).cases,
      (runB rid batch (process_one rid s d)).next_case_id) = _
    rw [List.foldl_cons, ← hstep]
    exact ih (process_one rid s d) K hK'

/-! ## Claim C2 machinery.  Part E: last-write-wins absorption of replayed
case writes. -/

/-- One abstract case write (key and fields). -/
def upsertW (p : List CaseRow × Nat) (w : String × CaseFields) :
    List CaseRow × Nat :=
  ((upsertCase p.1 p.2 w.1 w.2).cases, (upsertCase p.1 p.2 w.1 w.2).next_case_id)

/-- The write a docket contributes under a cache view, if any. -/
def writeOf (K : CacheView) (d : Docket) : Option (String × CaseFields) :=
  if docketValid d = true then
    match parse_date (some (d.filed_date.getD "")) with
    | Except.ok fd => some (docketCaseNumber d, writeFieldsK K d fd)
    | Except.error _ => none
  else none

/-- The write sequence of a batch under a cache view. -/
def writesOf (K : CacheView) (batch : List Docket) : List (String × CaseFields) :=
  batch.filterMap (writeOf K)

/-- The abstract replay step is the upsert of the docket's write. -/
theorem stepCW_eq_writeOf (K : CacheView) (p : List CaseRow × Nat) (d : Docket) :
    stepCW K p d = (match writeOf K d with
      | some w => upsertW p w
      | none => p) := by
  unfold stepCW writeOf upsertW
  by_cases hv : docketValid d = true
  · rw [if_pos hv, if_pos hv]
    cases parse_date (some (d.filed_date.getD "")) <;> rfl
  · rw [if_neg hv, if_neg hv]

/-- Folding the replay equals folding the write sequence. -/
theorem foldl_stepCW_eq (K : CacheView) (batch : List Docket) :
    ∀ p, batch.foldl (stepCW K) p = (writesOf K batch).foldl upsertW p := by
  induction batch with
  | nil => intro p; rfl
  | cons d batch ih =>
    intro p
    rw [List.foldl_cons]
    show _ = ((d :: batch).filterMap (writeOf K)).foldl upsertW p
    rw [List.filterMap_cons, stepCW_eq_writeOf]
    cases writeOf K d with
    | none => exact ih p
    | some w =>
      rw [List.foldl_cons]
      exact ih (upsertW p w)

/-- Key presence test on the cases table. -/
def containsKey (cs : List CaseRow) (k : String) : Bool :=
  (cs.find? (fun r => r.case_number == k)).isSome

/-- Key presence is the domain of the id map. -/
theorem containsKey_eq (cs : List CaseRow) (k : String) :
    containsKey cs k = (lookupId cs k).isSome := by
  unfold containsKey lookupId
  cases cs.find? (fun r => r.case_number == k) <;> rfl

/-- Key uniqueness invariant of the cases table. -/
def NodupKeys (cs : List CaseRow) : Prop :=
  (cs.map (fun r => r.case_number)).Nodup

/-- The upsert preserves key uniqueness. -/
theorem nodupKeys_upsert (cs : List CaseRow) (n : Nat) (k : String)
    (f : CaseFields) (h : NodupKeys cs) : NodupKeys (upsertCase cs n k f).cases := by
  unfold upsertCase
  split
  · unfold NodupKeys
    rw [List.map_map]
    have he : ((fun r : CaseRow => r.case_number) ∘
        (fun r => if r.case_number == k then setFields r f else r)) =
        fun r : CaseRow => r.case_number := funext (fun r => setFieldsIf_key k f r)
    rw [he]
    exact h
  · rename_i hnone
    unfold NodupKeys
    rw [List.map_append]
    apply List.Nodup.append h (by simp)
    intro x hx hy
    simp only [List.map_cons, List.map_nil, List.mem_singleton] at hy
    subst hy
    obtain ⟨r, hr, hrk⟩ := List.mem_map.1 hx
    have := List.find?_eq_none.1 hnone r hr
    rw [hrk] at this
    simp at this

/-- The upsert makes its own key present. -/
theorem containsKey_upsert_self (cs : List CaseRow) (n : Nat) (k : String)
    (f : CaseFields) : containsKey (upsertCase cs n k f).cases k = true := by
  obtain ⟨row, hrow, _, _, _⟩ := upsert_find_self cs n k f
  unfold containsKey
  rw [hrow]
  rfl

/-- The upsert keeps every present key present. -/
theorem containsKey_upsert_mono (cs : List CaseRow) (n : Nat) (k0 : String)
    (f : CaseFields) (k : String) (h : containsKey cs k = true) :
    containsKey (upsertCase cs n k0 f).cases k = true := by
  rw [containsKey_eq] at h ⊢
  obtain ⟨v, hv⟩ := Option.isSome_iff_exists.1 h
  rw [lookupId_upsert_mono cs n k0 f k v hv]
  rfl

/-- Folding writes keeps every present key present. -/
theorem foldUp_containsKey_mono (ws : List (String × CaseFields)) :
    ∀ (p : List CaseRow × Nat) (k : String), containsKey p.1 k = true →
      containsKey (ws.foldl upsertW p).1 k = true := by
  induction ws with
  | nil => exact fun p k h => h
  | cons w ws ih =>
    intro p k h
    rw [List.foldl_cons]
    exact ih _ k (containsKey_upsert_mono _ _ _ _ _ h)

/-- After folding a write sequence, every written key is present. -/
theorem foldUp_containsKey (ws : List (String × CaseFields)) :
    ∀ (p : List CaseRow × Nat) (w : String × CaseFields), w ∈ ws →
      containsKey ((ws.foldl upsertW p).1) w.1 = true := by
  induction ws with
  | nil => intro p w h; cases h
  | cons w0 ws ih =>
    intro p w hw
    rw [List.foldl_cons]
    rcases List.mem_cons.1 hw with h | h
    · subst h
      exact foldUp_containsKey_mono ws _ _ (containsKey_upsert_self _ _ _ _)
    · exact ih _ w h

/-- Last write for a key in a write sequence. -/
def lastW : List (String × CaseFields) → String → Option CaseFields
  | [], _ => none
  | w :: ws, k =>
    match lastW ws k with
    | some f => some f
    | none => if w.1 = k then some w.2 else none

/-- Row transformation induced by the last write for its key. -/
def applyLastW (ws : List (String × CaseFields)) (r : CaseRow) : CaseRow :=
  match lastW ws r.case_number with
  | some f => setFields r f
  | none => r

/-- Overwriting twice keeps only the last fields. -/
theorem setFields_setFields (r : CaseRow) (f1 f2 : CaseFields) :
    setFields (setFields r f1) f2 = setFields r f2 := rfl

/-- Writing back a row's own fields changes nothing. -/
theorem setFields_fieldsOf (r : CaseRow) : setFields r (fieldsOf r) = r := rfl

/-- A present-key upsert is a pure in-place update. -/
theorem upsertW_update (cs : List CaseRow) (n : Nat) (w : String × CaseFields)
    (h : containsKey cs w.1 = true) :
    upsertW (cs, n) w =
      (cs.map (fun r => if r.case_number == w.1 then setFields r w.2 else r), n) := by
  unfold upsertW upsertCase
  cases hf : cs.find? (fun r => r.case_number == w.1) with
  | none => rw [containsKey, hf] at h; cases h
  | some row => simp [hf]

/-- Keys are untouched by an in-place update map. -/
theorem containsKey_map_setFieldsIf (k0 : String) (f : CaseFields)
    (cs : List CaseRow) (k : String) :
    containsKey (cs.map (fun r => if r.case_number == k0 then setFields r f else r)) k =
      containsKey cs k := by
  rw [containsKey_eq, containsKey_eq, lookupId_map_setFieldsIf]

/-- Replay of a write sequence whose keys are all present is a pointwise map
applying each row's last write. -/
theorem foldUp_replay (ws : List (String × CaseFields)) :
    ∀ (cs : List CaseRow) (n : Nat),
      (∀ w ∈ ws, containsKey cs w.1 = true) →
      ws.foldl upsertW (cs, n) = (cs.map (applyLastW ws), n) := by
  induction ws with
  | nil =>
    intro cs n hws
    clear hws
    have he : cs.map (applyLastW []) = cs := by
      induction cs with
      | nil => rfl
      | cons r cs ihc => rw [List.map_cons, ihc]; rfl
    rw [List.foldl_nil, he]
  | cons w ws ih =>
    intro cs n h
    rw [List.foldl_cons, upsertW_update cs n w (h w (List.mem_cons_self _ _))]
    rw [ih _ n (fun w' hw' => by
      rw [containsKey_map_setFieldsIf]
      exact h w' (List.mem_cons_of_mem _ hw'))]
    rw [List.map_map]
    refine congrArg (fun l => (l, n)) (List.map_congr_left ?_)
    intro r _
    show applyLastW ws (if r.case_number == w.1 then setFields r w.2 else r) =
      applyLastW (w :: ws) r
    by_cases hb : (r.case_number == w.1) = true
    · rw [if_pos hb]
      unfold applyLastW
      rw [setFields_case_number]
      cases hL : lastW ws r.case_number with
      | some f =>
        rw [lastW, hL]
        exact setFields_setFields r w.2 f
      | none =>
        rw [lastW, hL]
        rw [if_pos (beq_iff_eq.1 hb).symm]
    · rw [if_neg hb]
      unfold applyLastW
      cases hL : lastW ws r.case_number with
      | some f => rw [lastW, hL]
      | none =>
        rw [lastW, hL]
        rw [if_neg (fun he => hb (by rw [he]; simp))]

/-- An in-place update under a different key does not move a key's row. -/
theorem find?_map_setFieldsIf_other (k0 : String) (f : CaseFields) (k : String)
    (h : ¬ k0 = k) (cs : List CaseRow) :
    (cs.map (fun r => if r.case_number == k0 then setFields r f else r)).find?
      (fun r => r.case_number == k) = cs.find? (fun r => r.case_number == k) := by
  induction cs with
  | nil => rfl
  | cons r cs ih =>
    rw [List.map_cons]
    by_cases hb : (r.case_number == k) = true
    · have hg : (if r.case_number == k0 then setFields r f else r) = r := by
        rw [if_neg]
        intro hc
        exact h ((beq_iff_eq.1 hc).symm.trans (beq_iff_eq.1 hb))
      rw [hg]
      simp only [List.find?, hb]
    · have hb' : (r.case_number == k) = false := by simpa using hb
      simp only [List.find?, setFieldsIf_key, hb']
      exact ih

/-- An upsert under a different key does not move a key's row. -/
theorem upsert_find_other (cs : List CaseRow) (n : Nat) (k0 : String)
    (f : CaseFields) (k : String) (h : ¬ k0 = k) :
    (upsertCase cs n k0 f).cases.find? (fun r => r.case_number == k) =
      cs.find? (fun r => r.case_number == k) := by
  unfold upsertCase
  split
  · exact find?_map_setFieldsIf_other k0 f k h cs
  · rename_i hnone
    cases hf : cs.find? (fun r => r.case_number == k) with
    | some row => exact find?_append_some _ _ _ _ hf
    | none =>
      rw [find?_append_of_none _ _ _ hf]
      simp only [List.find?]
      have : (k0 == k) = false := by simp [h]
      rw [show ((⟨n, k0, f.court_id, f.title, f.filed_date, f.case_type_id,
        f.judge_id, f.docket_text, f.status⟩ : CaseRow).case_number == k) = false
        from this]

/-- Keys not written by the sequence keep their row untouched. -/
theorem foldUp_frame (ws : List (String × CaseFields)) :
    ∀ (p : List CaseRow × Nat) (k : String), lastW ws k = none →
      ((ws.foldl upsertW p).1).find? (fun r => r.case_number == k) =
        p.1.find? (fun r => r.case_number == k) := by
  induction ws with
  | nil => intro p k _; rfl
  | cons w ws ih =>
    intro p k h
    have hws : lastW ws k = none := by
      rw [lastW] at h
      cases hL : lastW ws k with
      | none => rfl
      | some f => rw [hL] at h; cases h
    have hwk : ¬ w.1 = k := by
      rw [lastW, hws] at h
      intro he
      rw [if_pos he] at h
      cases h
    rw [List.foldl_cons, ih _ k hws]
    exact upsert_find_other _ _ _ _ _ hwk

/-- Folding writes preserves key uniqueness. -/
theorem foldUp_nodup (ws : List (String × CaseFields)) :
    ∀ (p : List CaseRow × Nat), NodupKeys p.1 →
      NodupKeys ((ws.foldl upsertW p).1) := by
  induction ws with
  | nil => exact fun p h => h
  | cons w ws ih =>
    intro p h
    rw [List.foldl_cons]
    exact ih _ (nodupKeys_upsert _ _ _ _ h)

/-- After folding, a key written by the sequence holds its last write. -/
theorem foldUp_char (ws : List (String × CaseFields)) :
    ∀ (cs : List CaseRow) (n : Nat) (k : String) (f : CaseFields),
      lastW ws k = some f →
      ∃ r, ((ws.foldl upsertW (cs, n)).1).find? (fun x => x.case_number == k) =
        some r ∧ fieldsOf r = f := by
  induction ws with
  | nil => intro cs n k f h; cases h
  | cons w ws ih =>
    intro cs n k f hlast
    rw [List.foldl_cons]
    cases hLk : lastW ws k with
    | some f' =>
      have hf : f' = f := by
        rw [lastW, hLk] at hlast
        injection hlast
      subst hf
      have := ih (upsertW (cs, n) w).1 (upsertW (cs, n) w).2 k f' hLk
      rwa [Prod.mk.eta] at this
    | none =>
      have hwk : w.1 = k ∧ w.2 = f := by
        rw [lastW, hLk] at hlast
        by_cases he : w.1 = k
        · rw [if_pos he] at hlast
          exact ⟨he, by injection hlast⟩
        · rw [if_neg he] at hlast
          cases hlast
      rw [foldUp_frame ws _ k hLk]
      obtain ⟨row, hrow, hfields, _, _⟩ := upsert_find_self cs n w.1 w.2
      rw [← hwk.1]
      exact ⟨row, hrow, hfields.trans hwk.2⟩

/-- With unique keys, a member row is what `find?` returns for its key. -/
theorem find?_eq_of_mem_nodup (cs : List CaseRow) (r : CaseRow)
    (hmem : r ∈ cs) (hnd : NodupKeys cs) :
    cs.find? (fun x => x.case_number == r.case_number) = some r := by
  induction cs with
  | nil => cases hmem
  | cons x cs ih =>
    unfold NodupKeys at hnd
    rw [List.map_cons, List.nodup_cons] at hnd
    rcases List.mem_cons.1 hmem with h | h
    · subst h
      simp [List.find?]
    · by_cases hb : (x.case_number == r.case_number) = true
      · exfalso
        apply hnd.1
        rw [beq_iff_eq.1 hb]
        exact List.mem_map.2 ⟨r, h, rfl⟩
      · have hb' : (x.case_number == r.case_number) = false := by simpa using hb
        simp only [List.find?, hb']
        exact ih h hnd.2

/-- Replaying the same write sequence a second time changes nothing: every
key is present and already carries its last write. -/
theorem foldUp_absorb (ws : List (String × CaseFields)) (cs : List CaseRow)
    (n : Nat) (hnd : NodupKeys cs) :
    ws.foldl upsertW (ws.foldl upsertW (cs, n)) = ws.foldl upsertW (cs, n) := by
  have hpresent : ∀ w ∈ ws, containsKey ((ws.foldl upsertW (cs, n)).1) w.1 = true :=
    fun w hw => foldUp_containsKey ws (cs, n) w hw
  have hndf : NodupKeys ((ws.foldl upsertW (cs, n)).1) :=
    foldUp_nodup ws (cs, n) hnd
  have h1 : ws.foldl upsertW (ws.foldl upsertW (cs, n)) =
      ws.foldl upsertW (((ws.foldl upsertW (cs, n)).1),
        ((ws.foldl upsertW (cs, n)).2)) := by
    rw [Prod.mk.eta]
  rw [h1, foldUp_replay ws _ _ hpresent]
  have hmapid : ((ws.foldl upsertW (cs, n)).1).map (applyLastW ws) =
      (ws.foldl upsertW (cs, n)).1 := by
    apply List.map_congr_left ?_ |>.trans (List.map_id _)
    intro r hr
    show applyLastW ws r = id r
    unfold applyLastW
    cases hL : lastW ws r.case_number with
    | none => rfl
    | some f =>
      obtain ⟨r', hr', hf'⟩ := foldUp_char ws cs n r.case_number f hL
      rw [find?_eq_of_mem_nodup _ r hr hndf] at hr'
      have he : r = r' := by injection hr'
      subst he
      show setFields r f = id r
      rw [← hf', setFields_fieldsOf]
      rfl
  rw [hmapid, Prod.mk.eta]

/-! ## Claim C2 machinery.  Part F: a batch already ingested leaves the
entity state frozen when replayed. -/

/-- Court resolution executes for this record (`case_number` and date pass). -/
def courtStage (d : Docket) : Bool :=
  (docketCaseNumber d != "") &&
  exceptIsOk (parse_date (some (d.filed_date.getD "")))

/-- Judge resolution executes for this record (court resolution passed). -/
def judgeStage (d : Docket) : Bool :=
  courtStage d && (docketCourtRaw d != "")

/-- A valid record reaches judge resolution. -/
theorem valid_judgeStage (d : Docket) (h : docketValid d = true) :
    judgeStage d = true := by
  simp only [docketValid, Bool.and_eq_true] at h
  simp only [judgeStage, courtStage, Bool.and_eq_true]
  exact ⟨⟨h.1.1.1.1, h.1.1.1.2⟩, h.1.1.2⟩

/-- Everything an already-processed record needs in order to re-process
without touching the entity tables: every cache key its resolutions use is
bound, its case row exists, and (when it is valid) every party link it
would insert is already present. -/
def ResolvedIn (s : Ingest) (d : Docket) : Prop :=
  (judgeStage d = true →
    (courtsCacheF s (normalize_court_name (docketCourtRaw d))).isSome = true) ∧
  (judgeStage d = true → ∀ k, judgeKey d.judge = some k →
    (judgesCacheF s k).isSome = true) ∧
  (judgeStage d = true → ¬ docketCaseTypeRaw d = "" →
    (caseTypesCacheF s (pyStrip (toLowerStr (docketCaseTypeRaw d)))).isSome = true) ∧
  (docketValid d = true →
    ∃ cid, caseIdF s (docketCaseNumber d) = some cid ∧
      ∀ p ∈ parse_parties (d.parties.getD ""), ¬ p.1 = "" →
        ∃ pid, partiesCacheF s (normalize_party_name p.1) = some pid ∧
          (⟨cid, pid, p.2⟩ : CasePartyRow) ∈ s.case_parties)

/-- ResolvedIn survives any monotone step. -/
theorem resolvedIn_mono {a b : Ingest} {d : Docket} (hm : Mono a b)
    (h : ResolvedIn a d) : ResolvedIn b d := by
  obtain ⟨h1, h2, h3, h4⟩ := h
  refine ⟨?_, ?_, ?_, ?_⟩
  · intro hs
    obtain ⟨v, hv⟩ := Option.isSome_iff_exists.1 (h1 hs)
    rw [hm.1 _ v hv]
    rfl
  · intro hs k hk
    obtain ⟨v, hv⟩ := Option.isSome_iff_exists.1 (h2 hs k hk)
    rw [hm.2.1 _ v hv]
    rfl
  · intro hs hct
    obtain ⟨v, hv⟩ := Option.isSome_iff_exists.1 (h3 hs hct)
    rw [hm.2.2.1 _ v hv]
    rfl
  · intro hv
    obtain ⟨cid, hcid, hps⟩ := h4 hv
    refine ⟨cid, hm.2.2.2.2.1 _ cid hcid, ?_⟩
    intro p hp hne
    obtain ⟨pid, hpid, hmem⟩ := hps p hp hne
    exact ⟨pid, hm.2.2.2.1 _ pid hpid, hm.2.2.2.2.2 _ hmem⟩

/-- ResolvedIn only reads the caches, the case-id map and the links. -/
theorem resolvedIn_congr {a b : Ingest} {d : Docket}
    (h1 : b.courts_cache = a.courts_cache) (h2 : b.judges_cache = a.judges_cache)
    (h3 : b.case_types_cache = a.case_types_cache)
    (h4 : b.parties_cache = a.parties_cache)
    (h5 : ∀ k, caseIdF b k = caseIdF a k) (h6 : b.case_parties = a.case_parties)
    (h : ResolvedIn a d) : ResolvedIn b d := by
  obtain ⟨g1, g2, g3, g4⟩ := h
  refine ⟨?_, ?_, ?_, ?_⟩
  · intro hs
    show (cacheLookup b.courts_cache _).isSome = true
    rw [h1]
    exact g1 hs
  · intro hs k hk
    show (cacheLookup b.judges_cache _).isSome = true
    rw [h2]
    exact g2 hs k hk
  · intro hs hct
    show (cacheLookup b.case_types_cache _).isSome = true
    rw [h3]
    exact g3 hs hct
  · intro hv
    obtain ⟨cid, hcid, hps⟩ := g4 hv
    refine ⟨cid, by rw [h5]; exact hcid, ?_⟩
    intro p hp hne
    obtain ⟨pid, hpid, hmem⟩ := hps p hp hne
    refine ⟨pid, ?_, by rw [h6]; exact hmem⟩
    show cacheLookup b.parties_cache _ = some pid
    rw [h4]
    exact hpid

/-- Case-type resolution on a cache hit changes nothing at all. -/
theorem gocct_cache_hit (s : Ingest) (raw : String) (i : Nat) (h : ¬ raw = "")
    (hc : cacheLookup s.case_types_cache (pyStrip (toLowerStr raw)) = some i) :
    get_or_create_case_type s raw = (Except.ok i, s) := by
  simp only [get_or_create_case_type, if_neg h, hc]

/-- Judge resolution on a cache hit only records the variation. -/
theorem gocj_cache_hit (s : Ingest) (j : Option String) (k : String) (i : Nat)
    (hk : judgeKey j = some k) (hc : cacheLookup s.judges_cache k = some i) :
    ∃ jn, j = some jn ∧
      get_or_create_judge s j = (some i, record_judge_variation s i jn) := by
  cases j with
  | none => cases hk
  | some jn =>
    refine ⟨jn, rfl, ?_⟩
    simp only [judgeKey] at hk
    by_cases h1 : jn = ""
    · rw [if_pos h1] at hk; cases hk
    · rw [if_neg h1] at hk
      by_cases h2 : normalize_judge_name jn = ""
      · rw [if_pos h2] at hk; cases hk
      · rw [if_neg h2] at hk
        injection hk with hk3
        subst hk3
        simp only [get_or_create_judge, if_neg h1, if_neg h2, hc]

/-- A link already present is not re-added. -/
theorem addCaseParty_mem (l : List CasePartyRow) (t : CasePartyRow)
    (h : t ∈ l) : addCaseParty l t = l := by
  unfold addCaseParty
  rw [if_pos (List.elem_eq_true_of_mem h)]

/-- The party loop records the binding and the link of every non-empty
party it visits. -/
theorem link_establishes (cid : Nat) (ps : List (String × String)) :
    ∀ (σ : Ingest) (p : String × String), p ∈ ps → ¬ p.1 = "" →
      ∃ pid, partiesCacheF (link_parties σ cid ps) (normalize_party_name p.1) = some pid ∧
        (⟨cid, pid, p.2⟩ : CasePartyRow) ∈ (link_parties σ cid ps).case_parties := by
  induction ps with
  | nil => intro σ p hp; cases hp
  | cons q ps ih =>
    intro σ p hp hne
    rcases List.mem_cons.1 hp with h | h
    · subst h
      obtain ⟨i, t, heq, hbind, _⟩ := gocp_resolved σ p.1 hne
      simp only [link_parties, heq]
      have hm := mono_link cid ps
        { t with case_parties := addCaseParty t.case_parties ⟨cid, i, p.2⟩ }
      refine ⟨i, hm.2.2.2.1 _ i hbind, ?_⟩
      exact hm.2.2.2.2.2 _ (mem_addCaseParty_self t.case_parties ⟨cid, i, p.2⟩)
    · simp only [link_parties]
      split
      · exact ih _ p h hne
      · exact ih _ p h hne

/-- Replaying the party loop when every binding and link is already present
only bumps party name variations. -/
theorem link_frozen (cid : Nat) (ps : List (String × String)) :
    ∀ σ : Ingest,
      (∀ p ∈ ps, ¬ p.1 = "" →
        ∃ pid, partiesCacheF σ (normalize_party_name p.1) = some pid ∧
          (⟨cid, pid, p.2⟩ : CasePartyRow) ∈ σ.case_parties) →
      ∃ v, link_parties σ cid ps = { σ with party_name_variations := v } := by
  induction ps with
  | nil => exact fun σ _ => ⟨σ.party_name_variations, rfl⟩
  | cons q ps ih =>
    intro σ h
    by_cases hq : q.1 = ""
    · have hgocp : get_or_create_party σ q.1 =
          (Except.error "Party name cannot be empty", σ) := by
        rw [hq]
        rfl
      simp only [link_parties, hgocp]
      exact ih σ (fun p hp => h p (List.mem_cons_of_mem _ hp))
    · obtain ⟨pid, hpid, hmem⟩ := h q (List.mem_cons_self _ _) hq
      have hgocp := gocp_cache_hit σ q.1 pid hq hpid
      simp only [link_parties, hgocp, record_party_variation]
      have hadd : addCaseParty σ.case_parties ⟨cid, pid, q.2⟩ = σ.case_parties :=
        addCaseParty_mem _ _ hmem
      rw [hadd]
      obtain ⟨v, hv⟩ := ih
        { σ with party_name_variations := bumpVariation σ.party_name_variations pid q.1 }
        (fun p hp hne => h p (List.mem_cons_of_mem _ hp) hne)
      exact ⟨v, hv⟩

/-- Frozen-state relation: the entity tables, all caches, the case-party
links, the key-to-case-id map and every id sequence agree.  (The case rows
themselves may have been rewritten in place, and the counters, logs and
variation tables may differ.) -/
structure FrozenEq (a b : Ingest) : Prop where
  courts : b.courts = a.courts
  judges : b.judges = a.judges
  case_types : b.case_types = a.case_types
  parties : b.parties = a.parties
  courts_cache : b.courts_cache = a.courts_cache
  judges_cache : b.judges_cache = a.judges_cache
  case_types_cache : b.case_types_cache = a.case_types_cache
  parties_cache : b.parties_cache = a.parties_cache
  case_parties : b.case_parties = a.case_parties
  caseId : ∀ k, caseIdF b k = caseIdF a k
  next_court_id : b.next_court_id = a.next_court_id
  next_judge_id : b.next_judge_id = a.next_judge_id
  next_case_type_id : b.next_case_type_id = a.next_case_type_id
  next_party_id : b.next_party_id = a.next_party_id
  next_case_id : b.next_case_id = a.next_case_id

/-- FrozenEq is reflexive. -/
theorem frozenEq_refl (a : Ingest) : FrozenEq a a :=
  ⟨rfl, rfl, rfl, rfl, rfl, rfl, rfl, rfl, rfl, fun _ => rfl,
   rfl, rfl, rfl, rfl, rfl⟩

/-- FrozenEq is transitive. -/
theorem frozenEq_trans {a b c : Ingest} (h1 : FrozenEq a b) (h2 : FrozenEq b c) :
    FrozenEq a c :=
  ⟨h2.courts.trans h1.courts, h2.judges.trans h1.judges,
   h2.case_types.trans h1.case_types, h2.parties.trans h1.parties,
   h2.courts_cache.trans h1.courts_cache, h2.judges_cache.trans h1.judges_cache,
   h2.case_types_cache.trans h1.case_types_cache,
   h2.parties_cache.trans h1.parties_cache,
   h2.case_parties.trans h1.case_parties,
   fun k => (h2.caseId k).trans (h1.caseId k),
   h2.next_court_id.trans h1.next_court_id,
   h2.next_judge_id.trans h1.next_judge_id,
   h2.next_case_type_id.trans h1.next_case_type_id,
   h2.next_party_id.trans h1.next_party_id,
   h2.next_case_id.trans h1.next_case_id⟩

/-- Replaying one record whose resolutions are all cache hits and whose case
row and links already exist leaves the entity state frozen: the outcome is
ok exactly on validity, and a valid record reports `updated`. -/
theorem pd_frozen (σ : Ingest) (d : Docket) (hres : ResolvedIn σ d) :
    ∃ r t, process_docket σ d = (r, t) ∧ FrozenEq σ t ∧
      exceptIsOk r = docketValid d ∧
      (docketValid d = true → r = Except.ok "updated") := by
  by_cases h1 : docketCaseNumber d = ""
  · have hv : docketValid d = false := by
      simp [docketValid, h1]
    refine ⟨Except.error "case_number is required and cannot be empty", σ,
      by simp only [process_docket, if_pos h1], frozenEq_refl σ, ?_, ?_⟩
    · rw [hv]; rfl
    · intro hvv; rw [hv] at hvv; cases hvv
  · cases hd : parse_date (some (d.filed_date.getD "")) with
    | error e =>
      have hv : docketValid d = false := by
        simp [docketValid, hd, exceptIsOk]
      refine ⟨Except.error e, σ, by simp only [process_docket, if_neg h1, hd],
        frozenEq_refl σ, ?_, ?_⟩
      · rw [hv]; rfl
      · intro hvv; rw [hv] at hvv; cases hvv
    | ok fd =>
      by_cases hc : docketCourtRaw d = ""
      · have hv : docketValid d = false := by
          simp [docketValid, hc]
        refine ⟨Except.error "Court name cannot be empty", σ,
          by simp only [process_docket, if_neg h1, hd, hc,
            gocc_err_empty], frozenEq_refl σ, ?_, ?_⟩
        · rw [hv]; rfl
        · intro hvv; rw [hv] at hvv; cases hvv
      · have hjs : judgeStage d = true := by
          simp only [judgeStage, courtStage, Bool.and_eq_true, bne_iff_ne, ne_eq]
          exact ⟨⟨h1, by rw [hd]; rfl⟩, hc⟩
        obtain ⟨ci0, hci0⟩ := Option.isSome_iff_exists.1 (hres.1 hjs)
        have hgocc := gocc_cache_hit σ (docketCourtRaw d) ci0 hc hci0
        have hpre : ∃ jr t2,
            get_or_create_judge (record_court_variation σ ci0 (docketCourtRaw d))
              d.judge = (jr, t2) ∧
            FrozenEq σ t2 ∧ t2.cases = σ.cases := by
          cases hk : judgeKey d.judge with
          | none =>
            exact ⟨none, _, gocj_none _ d.judge hk,
              ⟨rfl, rfl, rfl, rfl, rfl, rfl, rfl, rfl, rfl, fun _ => rfl,
               rfl, rfl, rfl, rfl, rfl⟩, rfl⟩
          | some k =>
            obtain ⟨ji0, hji0⟩ := Option.isSome_iff_exists.1 (hres.2.1 hjs k hk)
            obtain ⟨jn, _, hgocj⟩ := gocj_cache_hit
              (record_court_variation σ ci0 (docketCourtRaw d)) d.judge k ji0 hk hji0
            exact ⟨some ji0, _, hgocj,
              ⟨rfl, rfl, rfl, rfl, rfl, rfl, rfl, rfl, rfl, fun _ => rfl,
               rfl, rfl, rfl, rfl, rfl⟩, rfl⟩
        obtain ⟨jr, t2, hgocj, hfe2, hc2⟩ := hpre
        by_cases hct : docketCaseTypeRaw d = ""
        · have hv : docketValid d = false := by
            simp [docketValid, hct]
          refine ⟨Except.error "Case type cannot be empty", t2, ?_, hfe2, ?_, ?_⟩
          · simp only [process_docket, if_neg h1, hd, hgocc, hgocj, hct,
              gocct_err_empty]
          · rw [hv]; rfl
          · intro hvv; rw [hv] at hvv; cases hvv
        · obtain ⟨ti0, hti0⟩ := Option.isSome_iff_exists.1 (hres.2.2.1 hjs hct)
          have hti2 : cacheLookup t2.case_types_cache
              (pyStrip (toLowerStr (docketCaseTypeRaw d))) = some ti0 := by
            rw [hfe2.case_types_cache]
            exact hti0
          have hgocct := gocct_cache_hit t2 (docketCaseTypeRaw d) ti0 hct hti2
          by_cases hst : statusOk (docketStatus d) = true
          · have hv : docketValid d = true := by
              simp only [docketValid, Bool.and_eq_true, bne_iff_ne, ne_eq]
              exact ⟨⟨⟨⟨h1, by rw [hd]; rfl⟩, hc⟩, hct⟩, hst⟩
            obtain ⟨cid, hcid, hps⟩ := hres.2.2.2 hv
            obtain ⟨row, hf, hrid⟩ : ∃ row,
                σ.cases.find? (fun r => r.case_number == docketCaseNumber d) =
                  some row ∧ row.id = cid := by
              unfold caseIdF lookupId at hcid
              cases hf : σ.cases.find?
                  (fun r => r.case_number == docketCaseNumber d) with
              | none => rw [hf] at hcid; cases hcid
              | some row =>
                rw [hf] at hcid
                exact ⟨row, rfl, by injection hcid⟩
            have hup : upsertCase t2.cases t2.next_case_id (docketCaseNumber d)
                ⟨ci0, d.title.getD "", fd, ti0, jr, d.docket_text.getD "",
                 docketStatus d⟩ =
                ⟨row.id, false,
                 σ.cases.map (fun r =>
                   if r.case_number == docketCaseNumber d then
                     setFields r ⟨ci0, d.title.getD "", fd, ti0, jr,
                       d.docket_text.getD "", docketStatus d⟩
                   else r),
                 t2.next_case_id⟩ := by
              rw [hc2]
              simp only [upsertCase, hf]
            have hps4 : ∀ p ∈ parse_parties (d.parties.getD ""), ¬ p.1 = "" →
                ∃ pid, partiesCacheF
                  { t2 with
                    cases := σ.cases.map (fun r =>
                      if r.case_number == docketCaseNumber d then
                        setFields r ⟨ci0, d.title.getD "", fd, ti0, jr,
                          d.docket_text.getD "", docketStatus d⟩
                      else r),
                    next_case_id := t2.next_case_id,
                    processed_cases :=
                      addProcessed t2.processed_cases (docketCaseNumber d) }
                  (normalize_party_name p.1) = some pid ∧
                  (⟨row.id, pid, p.2⟩ : CasePartyRow) ∈
                    ({ t2 with
                      cases := σ.cases.map (fun r =>
                        if r.case_number == docketCaseNumber d then
                          setFields r ⟨ci0, d.title.getD "", fd, ti0, jr,
                            d.docket_text.getD "", docketStatus d⟩
                        else r),
                      next_case_id := t2.next_case_id,
                      processed_cases :=
                        addProcessed t2.processed_cases (docketCaseNumber d) } :
                      Ingest).case_parties := by
              intro p hp hne
              obtain ⟨pid, hpid, hmem⟩ := hps p hp hne
              rw [hrid]
              refine ⟨pid, ?_, ?_⟩
              · show cacheLookup t2.parties_cache _ = some pid
                rw [hfe2.parties_cache]
                exact hpid
              · show _ ∈ t2.case_parties
                rw [hfe2.case_parties]
                exact hmem
            obtain ⟨v, hlink⟩ := link_frozen row.id
              (parse_parties (d.parties.getD "")) _ hps4
            refine ⟨Except.ok "updated",
              { t2 with
                cases := σ.cases.map (fun r =>
                  if r.case_number == docketCaseNumber d then
                    setFields r ⟨ci0, d.title.getD "", fd, ti0, jr,
                      d.docket_text.getD "", docketStatus d⟩
                  else r),
                next_case_id := t2.next_case_id,
                processed_cases :=
                  addProcessed t2.processed_cases (docketCaseNumber d),
                party_name_variations := v },
              ?_, ?_, by rw [hv]; rfl, fun _ => rfl⟩
            · simp only [process_docket, if_neg h1, hd, hgocc, hgocj, hgocct,
                hst, Bool.not_true, Bool.false_eq_true, if_false, hup]
              rw [hlink]
            · refine ⟨hfe2.courts, hfe2.judges, hfe2.case_types, hfe2.parties,
                hfe2.courts_cache, hfe2.judges_cache, hfe2.case_types_cache,
                hfe2.parties_cache, hfe2.case_parties, ?_,
                hfe2.next_court_id, hfe2.next_judge_id, hfe2.next_case_type_id,
                hfe2.next_party_id, hfe2.next_case_id⟩
              intro k
              show lookupId (σ.cases.map _) k = lookupId σ.cases k
              exact lookupId_map_setFieldsIf _ _ σ.cases k
          · have hst' : statusOk (docketStatus d) = false := by
              simpa using hst
            have hv : docketValid d = false := by
              simp [docketValid, hst']
            refine ⟨Except.error ("Invalid status " ++ docketStatus d ++
              ". Must be one of: active, closed, pending, dismissed"), t2,
              ?_, hfe2, ?_, ?_⟩
            · simp only [process_docket, if_neg h1, hd, hgocc, hgocj, hgocct,
                hst', Bool.not_false, if_true]
            · rw [hv]; rfl
            · intro hvv; rw [hv] at hvv; cases hvv

/-- A record that never reaches judge resolution is vacuously resolved. -/
theorem resolvedIn_of_not_stage (s : Ingest) (d : Docket)
    (hjs : judgeStage d = false) : ResolvedIn s d := by
  have hv : docketValid d = false := by
    cases hvv : docketValid d with
    | false => rfl
    | true =>
      have h2 := valid_judgeStage d hvv
      rw [hjs] at h2
      cases h2
  refine ⟨?_, ?_, ?_, ?_⟩
  · intro h; rw [hjs] at h; cases h
  · intro h; rw [hjs] at h; cases h
  · intro h; rw [hjs] at h; cases h
  · intro h; rw [hv] at h; cases h

/-- Processing any record establishes every cache binding, the case row and
the links it would need on a replay. -/
theorem pd_establishes (σ : Ingest) (d : Docket) :
    ResolvedIn (process_docket σ d).2 d := by
  by_cases h1 : docketCaseNumber d = ""
  · have hjs : judgeStage d = false := by
      simp [judgeStage, courtStage, h1]
    simp only [process_docket, if_pos h1]
    exact resolvedIn_of_not_stage σ d hjs
  · cases hd : parse_date (some (d.filed_date.getD "")) with
    | error e =>
      have hjs : judgeStage d = false := by
        simp [judgeStage, courtStage, hd, exceptIsOk]
      simp only [process_docket, if_neg h1, hd]
      exact resolvedIn_of_not_stage σ d hjs
    | ok fd =>
      by_cases hc : docketCourtRaw d = ""
      · have hjs : judgeStage d = false := by
          simp [judgeStage, hc]
        simp only [process_docket, if_neg h1, hd, hc, gocc_err_empty]
        exact resolvedIn_of_not_stage σ d hjs
      · obtain ⟨ci, t1, heq1, hcache1, _⟩ := gocc_resolved σ (docketCourtRaw d) hc
        by_cases hct : docketCaseTypeRaw d = ""
        · simp only [process_docket, if_neg h1, hd, heq1, hct, gocct_err_empty]
          refine ⟨?_, ?_, ?_, ?_⟩
          · intro _
            show (cacheLookup
              (get_or_create_judge t1 d.judge).2.courts_cache _).isSome = true
            rw [gocj_courts_cache, hcache1]
            rfl
          · intro _ k hk
            obtain ⟨ji, _, hbound⟩ := gocj_resolved_some t1 d.judge k hk
            show (judgesCacheF (get_or_create_judge t1 d.judge).2 k).isSome = true
            rw [hbound]
            rfl
          · intro _ hh
            exact absurd hct hh
          · intro hvv
            have hvf : docketValid d = false := by simp [docketValid, hct]
            rw [hvf] at hvv
            cases hvv
        · obtain ⟨ti, t3, heq3, hcache3⟩ :=
            gocct_resolved (get_or_create_judge t1 d.judge).2 (docketCaseTypeRaw d) hct
          have hA : t3.courts_cache =
              (get_or_create_judge t1 d.judge).2.courts_cache := by
            have h0 := gocct_courts_cache (get_or_create_judge t1 d.judge).2
              (docketCaseTypeRaw d)
            rw [heq3] at h0
            exact h0
          have hB : t3.judges_cache =
              (get_or_create_judge t1 d.judge).2.judges_cache := by
            have h0 := gocct_judges_cache (get_or_create_judge t1 d.judge).2
              (docketCaseTypeRaw d)
            rw [heq3] at h0
            exact h0
          by_cases hst : statusOk (docketStatus d) = true
          · simp only [process_docket, if_neg h1, hd, heq1, heq3, hst,
              Bool.not_true, Bool.false_eq_true, if_false]
            refine ⟨?_, ?_, ?_, ?_⟩
            · intro _
              show (cacheLookup (link_parties _ _ _).courts_cache _).isSome = true
              rw [link_courts_cache]
              show (cacheLookup t3.courts_cache _).isSome = true
              rw [hA, gocj_courts_cache, hcache1]
              rfl
            · intro _ k hk
              obtain ⟨ji, _, hbound⟩ := gocj_resolved_some t1 d.judge k hk
              show (cacheLookup (link_parties _ _ _).judges_cache k).isSome = true
              rw [link_judges_cache]
              show (cacheLookup t3.judges_cache k).isSome = true
              rw [hB]
              show (judgesCacheF (get_or_create_judge t1 d.judge).2 k).isSome = true
              rw [hbound]
              rfl
            · intro _ _
              show (cacheLookup (link_parties _ _ _).case_types_cache _).isSome = true
              rw [link_case_types_cache]
              show (caseTypesCacheF t3 _).isSome = true
              rw [hcache3]
              rfl
            · intro _
              obtain ⟨row, hrow, _, _, hid⟩ := upsert_find_self t3.cases
                t3.next_case_id (docketCaseNumber d)
                ⟨ci, d.title.getD "", fd, ti, (get_or_create_judge t1 d.judge).1,
                 d.docket_text.getD "", docketStatus d⟩
              refine ⟨(upsertCase t3.cases t3.next_case_id (docketCaseNumber d)
                ⟨ci, d.title.getD "", fd, ti, (get_or_create_judge t1 d.judge).1,
                 d.docket_text.getD "", docketStatus d⟩).case_id, ?_, ?_⟩
              · show lookupId (link_parties _ _ _).cases (docketCaseNumber d) =
                  some _
                rw [link_parties_cases]
                show lookupId (upsertCase t3.cases t3.next_case_id _ _).cases _ =
                  some _
                unfold lookupId
                rw [hrow]
                simp only [Option.map_some']
                rw [hid]
              · intro p hp hne
                exact link_establishes _ (parse_parties (d.parties.getD ""))
                  _ p hp hne
          · have hst' : statusOk (docketStatus d) = false := by simpa using hst
            simp only [process_docket, if_neg h1, hd, heq1, heq3, hst',
              Bool.not_false, if_true]
            refine ⟨?_, ?_, ?_, ?_⟩
            · intro _
              show (cacheLookup t3.courts_cache _).isSome = true
              rw [hA, gocj_courts_cache, hcache1]
              rfl
            · intro _ k hk
              obtain ⟨ji, _, hbound⟩ := gocj_resolved_some t1 d.judge k hk
              show (cacheLookup t3.judges_cache k).isSome = true
              rw [hB]
              show (judgesCacheF (get_or_create_judge t1 d.judge).2 k).isSome = true
              rw [hbound]
              rfl
            · intro _ _
              show (caseTypesCacheF t3 _).isSome = true
              rw [hcache3]
              rfl
            · intro hvv
              have hvf : docketValid d = false := by simp [docketValid, hst']
              rw [hvf] at hvv
              cases hvv

/-- One driver iteration establishes its record's resolved state. -/
theorem step_establishes (rid : Nat) (σ : Ingest) (d : Docket) :
    ResolvedIn (process_one rid σ d) d := by
  have hpd := pd_establishes { σ with read := σ.read + 1 } d
  simp only [process_one]
  split
  · rename_i a s1 heq2
    rw [heq2] at hpd
    split
    · exact resolvedIn_congr rfl rfl rfl rfl (fun _ => rfl) rfl hpd
    · split
      · exact resolvedIn_congr rfl rfl rfl rfl (fun _ => rfl) rfl hpd
      · exact hpd
  · rename_i e s1 heq2
    rw [heq2] at hpd
    obtain ⟨E, hre2⟩ := re_shape (write_quarantine_jsonl s1 rid d
      (determine_error_code e) e) rid d (determine_error_code e) e (errCaseNumber d)
    rw [hre2, wq_shape]
    exact resolvedIn_congr rfl rfl rfl rfl (fun _ => rfl) rfl hpd

/-- After a whole run, every record of the batch is in resolved state. -/
theorem run_establishes (rid : Nat) (batch : List Docket) :
    ∀ (σ : Ingest) (d : Docket), d ∈ batch → ResolvedIn (runB rid batch σ) d := by
  induction batch with
  | nil => intro σ d h; cases h
  | cons d0 batch ih =>
    intro σ d hd
    rcases List.mem_cons.1 hd with h | h
    · subst h
      exact resolvedIn_mono (mono_runB rid batch (process_one rid σ d))
        (step_establishes rid σ d)
    · exact ih (process_one rid σ d0) d h

/-- Replaying one resolved record leaves the entity state frozen; a valid
record counts one `updated`, an invalid one counts nothing. -/
theorem frozen_step (rid : Nat) (σ : Ingest) (d : Docket) (hres : ResolvedIn σ d) :
    FrozenEq σ (process_one rid σ d) ∧
    (process_one rid σ d).inserted = σ.inserted ∧
    (process_one rid σ d).updated =
      σ.updated + (if docketValid d = true then 1 else 0) := by
  obtain ⟨r, t, heq, hfe, hok, hupd⟩ :=
    pd_frozen { σ with read := σ.read + 1 } d hres
  have hcf := pd_counters { σ with read := σ.read + 1 } d
  rw [heq] at hcf
  have hins : t.inserted = σ.inserted := hcf.2.1
  have hupdc : t.updated = σ.updated := hcf.2.2.1
  simp only [process_one]
  split
  · rename_i a s1 heq2
    rw [heq] at heq2
    rw [Prod.mk.injEq] at heq2
    obtain ⟨hra, hts⟩ := heq2
    subst hts
    have hv : docketValid d = true := by rw [← hok, hra]; rfl
    have ha : a = "updated" := by
      have h2 := hupd hv
      rw [h2] at hra
      injection hra with hra2
      exact hra2.symm
    subst ha
    rw [if_neg (by decide : ¬("updated" = "inserted")), if_pos rfl]
    refine ⟨?_, hins, ?_⟩
    · exact ⟨hfe.courts, hfe.judges, hfe.case_types, hfe.parties,
        hfe.courts_cache, hfe.judges_cache, hfe.case_types_cache,
        hfe.parties_cache, hfe.case_parties, hfe.caseId,
        hfe.next_court_id, hfe.next_judge_id, hfe.next_case_type_id,
        hfe.next_party_id, hfe.next_case_id⟩
    · show t.updated + 1 = σ.updated + (if docketValid d = true then 1 else 0)
      rw [if_pos hv, hupdc]
  · rename_i e s1 heq2
    rw [heq] at heq2
    rw [Prod.mk.injEq] at heq2
    obtain ⟨hre', hts⟩ := heq2
    subst hts
    have hv : docketValid d = false := by rw [← hok, hre']; rfl
    obtain ⟨E, hre2⟩ := re_shape (write_quarantine_jsonl t rid d
      (determine_error_code e) e) rid d (determine_error_code e) e (errCaseNumber d)
    rw [hre2, wq_shape]
    refine ⟨?_, hins, ?_⟩
    · exact ⟨hfe.courts, hfe.judges, hfe.case_types, hfe.parties,
        hfe.courts_cache, hfe.judges_cache, hfe.case_types_cache,
        hfe.parties_cache, hfe.case_parties, hfe.caseId,
        hfe.next_court_id, hfe.next_judge_id, hfe.next_case_type_id,
        hfe.next_party_id, hfe.next_case_id⟩
    · show t.updated = σ.updated + (if docketValid d = true then 1 else 0)
      simp only [hv, Bool.false_eq_true, if_false]
      rw [hupdc]
      rfl

/-- Number of valid records of a batch. -/
def countValid (batch : List Docket) : Nat :=
  (batch.filter (fun d => docketValid d)).length

/-- countValid unfolds along cons. -/
theorem countValid_cons (d : Docket) (batch : List Docket) :
    countValid (d :: batch) =
      (if docketValid d = true then 1 else 0) + countValid batch := by
  simp only [countValid, List.filter_cons]
  cases hv : docketValid d with
  | false => simp [hv]
  | true =>
    simp [hv]
    omega

/-- Replaying a fully resolved batch leaves the entity state frozen, inserts
nothing and updates once per valid record. -/
theorem frozen_run (rid : Nat) (batch : List Docket) :
    ∀ σ : Ingest, (∀ d ∈ batch, ResolvedIn σ d) →
      FrozenEq σ (runB rid batch σ) ∧
      (runB rid batch σ).inserted = σ.inserted ∧
      (runB rid batch σ).updated = σ.updated + countValid batch := by
  induction batch with
  | nil =>
    intro σ _
    exact ⟨frozenEq_refl σ, rfl, rfl⟩
  | cons d batch ih =>
    intro σ h
    have F1 := frozen_step rid σ d (h d (List.mem_cons_self _ _))
    have hres' : ∀ d' ∈ batch, ResolvedIn (process_one rid σ d) d' :=
      fun d' hd' => resolvedIn_congr F1.1.courts_cache F1.1.judges_cache
        F1.1.case_types_cache F1.1.parties_cache F1.1.caseId F1.1.case_parties
        (h d' (List.mem_cons_of_mem _ hd'))
    have IH := ih (process_one rid σ d) hres'
    refine ⟨frozenEq_trans F1.1 IH.1, ?_, ?_⟩
    · show (runB rid batch (process_one rid σ d)).inserted = σ.inserted
      rw [IH.2.1, F1.2.1]
    · show (runB rid batch (process_one rid σ d)).updated =
        σ.updated + countValid (d :: batch)
      rw [IH.2.2, F1.2.2, countValid_cons]
      omega

/-- One driver iteration adds one to `inserted + updated` exactly when the
record is valid. -/
theorem process_one_ins_upd (rid : Nat) (σ : Ingest) (d : Docket) :
    (process_one rid σ d).inserted + (process_one rid σ d).updated =
      σ.inserted + σ.updated + (if docketValid d = true then 1 else 0) := by
  simp only [process_one]
  split
  · rename_i a s1 heq
    have hv : docketValid d = true := (pd_ok_iff _ d).1 ⟨a, s1, heq⟩
    have hcf := pd_counters { σ with read := σ.read + 1 } d
    rw [heq] at hcf
    have h1 : s1.inserted = σ.inserted := hcf.2.1
    have h2 : s1.updated = σ.updated := hcf.2.2.1
    rw [if_pos hv]
    rcases pd_action _ d a s1 heq with ha | ha <;> subst ha
    · rw [if_pos rfl]
      show s1.inserted + 1 + s1.updated = _
      omega
    · rw [if_neg (by decide : ¬("updated" = "inserted")), if_pos rfl]
      show s1.inserted + (s1.updated + 1) = _
      omega
  · rename_i e s1 heq
    have hv : docketValid d = false := by
      cases hvv : docketValid d with
      | false => rfl
      | true =>
        obtain ⟨a, t, h2⟩ := pd_ok_of_valid { σ with read := σ.read + 1 } d hvv
        rw [heq] at h2
        simp at h2
    have hcf := pd_counters { σ with read := σ.read + 1 } d
    rw [heq] at hcf
    have h1 : s1.inserted = σ.inserted := hcf.2.1
    have h2 : s1.updated = σ.updated := hcf.2.2.1
    obtain ⟨E, hre2⟩ := re_shape (write_quarantine_jsonl s1 rid d
      (determine_error_code e) e) rid d (determine_error_code e) e (errCaseNumber d)
    rw [hre2, wq_shape]
    simp only [hv, Bool.false_eq_true, if_false]
    show s1.inserted + s1.updated = _
    omega

/-- Over a run, `inserted + updated` counts exactly the valid records. -/
theorem runB_ins_upd (rid : Nat) (batch : List Docket) :
    ∀ σ : Ingest, (runB rid batch σ).inserted + (runB rid batch σ).updated =
      σ.inserted + σ.updated + countValid batch := by
  induction batch with
  | nil => intro σ; rfl
  | cons d batch ih =>
    intro σ
    show (runB rid batch (process_one rid σ d)).inserted +
      (runB rid batch (process_one rid σ d)).updated = _
    rw [ih (process_one rid σ d), countValid_cons]
    have h := process_one_ins_upd rid σ d
    omega

/-- Counter reset the driver performs at the start of a run. -/
def resetCounters (s : Ingest) : Ingest :=
  { s with read := 0, inserted := 0, updated := 0, failed := 0 }

/-- A run is the record loop from the counter-reset state. -/
theorem ingest_batch_eq_runB_reset (rid : Nat) (s : Ingest) (batch : List Docket) :
    ingest_batch rid s batch = runB rid batch (resetCounters s) := rfl

/-- C2: idempotence of re-ingestion.  Starting from any store whose cases
table has unique business keys (the database enforces this with a UNIQUE
constraint on `case_number`), ingesting the same batch twice yields
identical cases, parties and case-party link state after the second run,
the second run's `inserted` counter is 0, and its `updated` counter equals
the first run's `inserted + updated`. -/
theorem c2_idempotent_reingest (rid1 rid2 : Nat) (s : Ingest)
    (batch : List Docket) (hnd : NodupKeys s.cases) :
    (ingest_batch rid2 (ingest_batch rid1 s batch) batch).cases =
      (ingest_batch rid1 s batch).cases ∧
    (ingest_batch rid2 (ingest_batch rid1 s batch) batch).parties =
      (ingest_batch rid1 s batch).parties ∧
    (ingest_batch rid2 (ingest_batch rid1 s batch) batch).case_parties =
      (ingest_batch rid1 s batch).case_parties ∧
    (ingest_batch rid2 (ingest_batch rid1 s batch) batch).inserted = 0 ∧
    (ingest_batch rid2 (ingest_batch rid1 s batch) batch).updated =
      (ingest_batch rid1 s batch).inserted +
        (ingest_batch rid1 s batch).updated := by
  have hresAll1 : ∀ d ∈ batch, ResolvedIn
      (resetCounters (runB rid1 batch (resetCounters s))) d :=
    fun d hd => resolvedIn_congr rfl rfl rfl rfl (fun _ => rfl) rfl
      (run_establishes rid1 batch (resetCounters s) d hd)
  have FR := frozen_run rid2 batch
    (resetCounters (runB rid1 batch (resetCounters s))) hresAll1
  have hcv : cvLE
      (cachesView (runB rid2 batch
        (resetCounters (runB rid1 batch (resetCounters s)))))
      (cachesView (runB rid1 batch (resetCounters s))) := by
    refine ⟨?_, ?_, ?_⟩
    · intro k v hkv
      have h2 : cacheLookup (runB rid2 batch
          (resetCounters (runB rid1 batch
            (resetCounters s)))).courts_cache k = some v := hkv
      rw [FR.1.courts_cache] at h2
      exact h2
    · intro k v hkv
      have h2 : cacheLookup (runB rid2 batch
          (resetCounters (runB rid1 batch
            (resetCounters s)))).judges_cache k = some v := hkv
      rw [FR.1.judges_cache] at h2
      exact h2
    · intro k v hkv
      have h2 : cacheLookup (runB rid2 batch
          (resetCounters (runB rid1 batch
            (resetCounters s)))).case_types_cache k = some v := hkv
      rw [FR.1.case_types_cache] at h2
      exact h2
  have E1 : ((runB rid1 batch (resetCounters s)).cases,
      (runB rid1 batch (resetCounters s)).next_case_id) =
      (writesOf (cachesView (runB rid1 batch (resetCounters s)))
        batch).foldl upsertW (s.cases, s.next_case_id) := by
    have h := run_cases_eq rid1 batch (resetCounters s)
      (cachesView (runB rid1 batch (resetCounters s))) (cvLE_refl _)
    rw [foldl_stepCW_eq] at h
    exact h
  have E2 : ((runB rid2 batch
        (resetCounters (runB rid1 batch (resetCounters s)))).cases,
      (runB rid2 batch
        (resetCounters (runB rid1 batch (resetCounters s)))).next_case_id) =
      (writesOf (cachesView (runB rid1 batch (resetCounters s)))
        batch).foldl upsertW
        ((runB rid1 batch (resetCounters s)).cases,
         (runB rid1 batch (resetCounters s)).next_case_id) := by
    have h := run_cases_eq rid2 batch
      (resetCounters (runB rid1 batch (resetCounters s)))
      (cachesView (runB rid1 batch (resetCounters s))) hcv
    rw [foldl_stepCW_eq] at h
    exact h
  have habs := foldUp_absorb (writesOf (cachesView (runB rid1 batch
    (resetCounters s))) batch) s.cases s.next_case_id hnd
  rw [E1, habs, ← E1] at E2
  have h2 : (ingest_batch rid1 s batch).inserted +
      (ingest_batch rid1 s batch).updated = 0 + 0 + countValid batch :=
    runB_ins_upd rid1 batch (resetCounters s)
  have h3 : (ingest_batch rid2 (ingest_batch rid1 s batch) batch).updated =
      0 + countValid batch := FR.2.2
  exact ⟨congrArg Prod.fst E2, FR.1.parties, FR.1.case_parties, FR.2.1,
    by omega⟩

/-- Sample valid docket for the C2 witness. -/
def c2Doc : Docket :=
  { case_number := some "1:24-cv-100", title := some "Smith v. Acme",
    filed_date := some "2024-10-03", court := some "S.D.N.Y.",
    judge := some "Hon. Jane Roe", case_type := some "Civil",
    status := some "active", docket_text := some "Complaint filed",
    parties := some "John Smith (plaintiff); Acme Corp (defendant)" }

/-- C2 witness: the theorem applied to a concrete one-record batch from the
empty store, whose empty cases table trivially has unique keys. -/
theorem c2_witness :
    NodupKeys initIngest.cases ∧
    ((ingest_batch 2 (ingest_batch 1 initIngest [c2Doc]) [c2Doc]).cases =
      (ingest_batch 1 initIngest [c2Doc]).cases ∧
    (ingest_batch 2 (ingest_batch 1 initIngest [c2Doc]) [c2Doc]).parties =
      (ingest_batch 1 initIngest [c2Doc]).parties ∧
    (ingest_batch 2 (ingest_batch 1 initIngest [c2Doc]) [c2Doc]).case_parties =
      (ingest_batch 1 initIngest [c2Doc]).case_parties ∧
    (ingest_batch 2 (ingest_batch 1 initIngest [c2Doc]) [c2Doc]).inserted = 0 ∧
    (ingest_batch 2 (ingest_batch 1 initIngest [c2Doc]) [c2Doc]).updated =
      (ingest_batch 1 initIngest [c2Doc]).inserted +
        (ingest_batch 1 initIngest [c2Doc]).updated) :=
  ⟨List.nodup_nil, c2_idempotent_reingest 1 2 initIngest [c2Doc] List.nodup_nil⟩

end LegalIngest
